import Mathlib

/-!
Shallow embedding of the section-addressable document model of the
"what-did-I-do-today" (wdidt) journal CLI, and proofs about its operations.

The embedded code lives in `src/utils/fileHandler.js`, `src/commands/addTodo.js`
and the word-generator module (`generateUniqueThreeWordId`).  JavaScript strings
are modelled as Lean `String`s; the line lists produced by `content.split('\n')`
are modelled as `List String`; the regular-expression matching used by the
source is modelled by explicit character-list matchers that implement the
leftmost-match semantics of the specific patterns appearing in the source.
File-system state is threaded explicitly: functions that read and write the
notes file become pure functions from the old file content to the new file
content, and the wall-clock date string (`getTodayString`) becomes an explicit
`today` parameter.
-/

set_option maxRecDepth 20000

/-- JavaScript `\s` / `trim` whitespace, restricted to the ASCII range
(the Unicode space classes never occur in the modelled documents). -/
def jsWs (c : Char) : Bool :=
  c = ' ' || c = '\t' || c = '\n' || c = '\r' || c = '\x0b' || c = '\x0c'

/-- Characters of `String.prototype.trim`: drop whitespace at both ends. -/
def trimChars (s : List Char) : List Char :=
  ((s.dropWhile jsWs).reverse.dropWhile jsWs).reverse

/-- Model of JavaScript `s.trim()`. -/
def trimS (s : String) : String :=
  String.mk (trimChars s.data)

/-- Model of JavaScript `s.startsWith(p)`. -/
def jsStartsWith (s p : String) : Bool :=
  p.data.isPrefixOf s.data

/-- Does `p` occur (as a contiguous run) anywhere in `s`? -/
def occursIn (p : List Char) : List Char → Bool
  | [] => p.isPrefixOf []
  | c :: cs => p.isPrefixOf (c :: cs) || occursIn p cs

/-- Model of JavaScript `s.includes(p)`. -/
def jsIncludes (s p : String) : Bool :=
  occursIn p.data s.data

/-- Worker for `split('\n')`: accumulates the current line (reversed). -/
def splitLinesGo : List Char → List Char → List String
  | [], acc => [String.mk acc.reverse]
  | c :: cs, acc =>
    if c = '\n' then String.mk acc.reverse :: splitLinesGo cs []
    else splitLinesGo cs (c :: acc)

/-- Model of JavaScript `content.split('\n')`. -/
def jsSplitNl (s : String) : List String :=
  splitLinesGo s.data []

/-- Model of JavaScript `lines.join('\n')`. -/
def jsJoinNl : List String → String
  | [] => ""
  | [x] => x
  | x :: y :: ys => x ++ "\n" ++ jsJoinNl (y :: ys)

/-- Consume the literal `p` at the head of `s` (one regex literal step). -/
def dropLit (p : String) (s : List Char) : Option (List Char) :=
  if p.data.isPrefixOf s then some (s.drop p.data.length) else none

/-- Greedy character-class repetition (`\d+`, `[^"]+`, `[^>]*`, ...):
split off the maximal run of characters satisfying `p`. -/
def spanP (p : Char → Bool) : List Char → List Char × List Char
  | [] => ([], [])
  | c :: cs =>
    if p c then
      let r := spanP p cs
      (c :: r.1, r.2)
    else ([], c :: cs)

/-- Split `s` at the first occurrence of the literal `marker`, returning the
characters before it and the characters after it. -/
def splitAtFirst (marker : List Char) : List Char → Option (List Char × List Char)
  | [] => if marker.isPrefixOf [] then some ([], []) else none
  | c :: cs =>
    if marker.isPrefixOf (c :: cs) then some ([], (c :: cs).drop marker.length)
    else (splitAtFirst marker cs).map fun p => (c :: p.1, p.2)

/-- Lazy body capture `(.+?)` followed by the literal `close`: at least one
character, then everything up to the first occurrence of `close`. -/
def lazyBody (close : String) : List Char → Option (List Char × List Char)
  | [] => none
  | c :: cs => (splitAtFirst close.data cs).map fun p => (c :: p.1, p.2)

/-- Value of a decimal digit string (JavaScript `parseInt(ds, 10)` on `\d+`). -/
def digitsToNat (ds : List Char) : Nat :=
  ds.foldl (fun n c => n * 10 + (c.toNat - 48)) 0

/-- Alternation `(complete|incomplete)` of the task-status capture.  The two
branches have distinct first characters, so ordered alternation is exact. -/
def matchStatus (s : List Char) : Option (String × List Char) :=
  match dropLit "complete" s with
  | some r => some ("complete", r)
  | none =>
    match dropLit "incomplete" s with
    | some r => some ("incomplete", r)
    | none => none

/-- Match of the todo-line regex
`<ac:task><ac:task-id>(\d+)<\/ac:task-id><ac:task-status>(complete|incomplete)<\/ac:task-status><ac:task-body>(.+?)<\/ac:task-body><\/ac:task>`
anchored at the start of `s` (used by `extractTodos` and
`updateTodoInSection` in `src/utils/fileHandler.js`).  The greedy `\d+`
followed by a literal `<` is the maximal digit run (backtracking a greedy
digit run leaves a digit where `<` is required, so it never helps), and the
lazy `(.+?)` stops at the first occurrence of the closing literal. -/
def matchTodoAt (s : List Char) : Option (List Char × String × List Char) :=
  (dropLit "<ac:task><ac:task-id>" s).bind fun s1 =>
    let d := spanP Char.isDigit s1
    if d.1 = [] then none
    else
      (dropLit "</ac:task-id><ac:task-status>" d.2).bind fun s3 =>
        (matchStatus s3).bind fun st =>
          (dropLit "</ac:task-status><ac:task-body>" st.2).bind fun s5 =>
            (lazyBody "</ac:task-body></ac:task>" s5).map fun p => (d.1, st.1, p.1)

/-- Leftmost match of the todo-line regex in a line (`line.match(...)`). -/
def findTodoMatch : List Char → Option (List Char × String × List Char)
  | [] => none
  | c :: cs =>
    match matchTodoAt (c :: cs) with
    | some r => some r
    | none => findTodoMatch cs

/-- Match of `<ac:task-id>(\d+)<\/ac:task-id>` anchored at the start of `s`
(used by `getNextTodoId`). -/
def matchTaskIdAt (s : List Char) : Option (List Char) :=
  (dropLit "<ac:task-id>" s).bind fun s1 =>
    let d := spanP Char.isDigit s1
    if d.1 = [] then none
    else (dropLit "</ac:task-id>" d.2).map fun _ => d.1

/-- Leftmost match of the task-id regex in a line. -/
def findTaskId : List Char → Option (List Char)
  | [] => none
  | c :: cs =>
    match matchTaskIdAt (c :: cs) with
    | some r => some r
    | none => findTaskId cs

/-- Match of the context-link regex
`<a href="#context-([^"]+)"[^>]*>📎 [^<]+<\/a>` anchored at the start of `s`,
returning the captured context id and the rest after the match. -/
def matchAnchorAt (s : List Char) : Option (String × List Char) :=
  (dropLit "<a href=\"#context-" s).bind fun s1 =>
    let d := spanP (fun c => !(c = '"')) s1
    if d.1 = [] then none
    else
      (dropLit "\"" d.2).bind fun s2 =>
        let e := spanP (fun c => !(c = '>')) s2
        (dropLit ">" e.2).bind fun s3 =>
          (dropLit "📎 " s3).bind fun s4 =>
            let f := spanP (fun c => !(c = '<')) s4
            if f.1 = [] then none
            else (dropLit "</a>" f.2).map fun r => (String.mk d.1, r)

/-- Worker for `matchAll` of the context-link regex: successive leftmost,
non-overlapping matches.  The fuel starts at the list length, which is an
upper bound on the number of scanning steps since each step consumes at
least one character. -/
def matchAllAnchorsGo : Nat → List Char → List String
  | 0, _ => []
  | _ + 1, [] => []
  | fuel + 1, c :: cs =>
    match matchAnchorAt (c :: cs) with
    | some (cid, rest) => cid :: matchAllAnchorsGo fuel rest
    | none => matchAllAnchorsGo fuel cs

/-- Model of `text.matchAll(/<a href="#context-([^"]+)"[^>]*>📎 [^<]+<\/a>/g)`,
collecting the captured context ids. -/
def matchAllAnchors (s : List Char) : List String :=
  matchAllAnchorsGo s.length s

/-- Worker for a global regex replacement with the empty string: `m` returns
the rest after a match anchored at the current position.  Fuel as above. -/
def replaceAllGo (m : List Char → Option (List Char)) : Nat → List Char → List Char
  | 0, s => s
  | _ + 1, [] => []
  | fuel + 1, c :: cs =>
    match m (c :: cs) with
    | some rest => replaceAllGo m fuel rest
    | none => c :: replaceAllGo m fuel cs

/-- Anchored match of `<span[^>]*>`, returning the rest (for
`text.replace(/<span[^>]*>/g, '')`). -/
def matchSpanOpenAt (s : List Char) : Option (List Char) :=
  (dropLit "<span" s).bind fun s1 =>
    let d := spanP (fun c => !(c = '>')) s1
    dropLit ">" d.2

/-- Anchored match of `</span>`, returning the rest. -/
def matchSpanCloseAt (s : List Char) : Option (List Char) :=
  dropLit "</span>" s

/-- Anchored match of `\s*<a href="#context-[^"]+"[^>]*>📎 [^<]+<\/a>`:
maximal whitespace run, then the context-link pattern (a shorter whitespace
run would have to be followed by `<`, which whitespace is not). -/
def matchWsAnchorAt (s : List Char) : Option (List Char) :=
  let w := spanP jsWs s
  (matchAnchorAt w.2).map fun r => r.2

/-- Anchored match of `<[^>]+>` (used by the `/<[^>]+>/g` tag stripper of the
context readers), returning the rest. -/
def matchTagAt (s : List Char) : Option (List Char) :=
  (dropLit "<" s).bind fun s1 =>
    let d := spanP (fun c => !(c = '>')) s1
    if d.1 = [] then none else dropLit ">" d.2

/-- The todo-text cleanup of `extractTodos`:
`text.replace(/<span[^>]*>/g, '').replace(/<\/span>/g, '')` followed by
`text.replace(/\s*<a href="#context-[^"]+"[^>]*>📎 [^<]+<\/a>/g, '').trim()`. -/
def cleanText (body : List Char) : String :=
  let t1 := replaceAllGo matchSpanOpenAt body.length body
  let t2 := replaceAllGo matchSpanCloseAt t1.length t1
  let t3 := replaceAllGo matchWsAnchorAt t2.length t2
  trimS (String.mk t3)

/-- Strip all HTML tags: `.replace(/<[^>]+>/g, '')`. -/
def stripTags (s : List Char) : List Char :=
  replaceAllGo matchTagAt s.length s

/-- A parsed todo entry (`TodoItem` of `src/utils/fileHandler.js`; the code
additionally stores the `todoId` string `todo-<n>`). -/
structure TodoItem where
  checked : Bool
  text : String
  lineNumber : Nat
  contextIds : List String
  todoId : String
deriving DecidableEq

/-- A located day section (`TodaySection` of `src/utils/fileHandler.js`). -/
structure TodaySection where
  startIdx : Nat
  endIdx : Nat
  content : String
deriving DecidableEq

/-- A context entry as returned by `getAllContexts`. -/
structure CtxItem where
  id : String
  text : String
deriving DecidableEq

/-- A todo reference as returned by `getTodosReferencingContext`. -/
structure RefTodo where
  todoId : String
  text : String
deriving DecidableEq

/-- Scan worker of `extractTodos` (fileHandler.js lines 228-276): walks the
lines with the current absolute line index and the `inTodoSection` flag. -/
def extractGo : List String → Nat → Bool → List TodoItem
  | [], _, _ => []
  | l :: rest, i, inT =>
    if l = "<h3>Todos</h3>" then extractGo rest (i + 1) true
    else
      let inT2 := if jsStartsWith l "<h3>" then false else inT
      if inT2 = true ∧ trimS l ≠ "" then
        match findTodoMatch l.data with
        | some (ds, st, body) =>
            { checked := st == "complete"
              text := cleanText body
              lineNumber := i
              contextIds := matchAllAnchors body
              todoId := "todo-" ++ String.mk ds } :: extractGo rest (i + 1) inT2
        | none => extractGo rest (i + 1) inT2
      else extractGo rest (i + 1) inT2

/-- `extractTodos` on the section's line list. -/
def extractTodosL (lines : List String) : List TodoItem :=
  extractGo lines 0 false

/-- `extractTodos(sectionContent)` of `src/utils/fileHandler.js`. -/
def extractTodos (sectionContent : String) : List TodoItem :=
  extractTodosL (jsSplitNl sectionContent)

/-- Scan worker of `getNextTodoId` (fileHandler.js lines 283-312): running
maximum of the numeric task ids seen inside the Todos subsection. -/
def getNextTodoIdGo : List String → Bool → Nat → Nat
  | [], _, maxId => maxId + 1
  | l :: rest, inT, maxId =>
    if l = "<h3>Todos</h3>" then getNextTodoIdGo rest true maxId
    else
      let inT2 := if jsStartsWith l "<h3>" then false else inT
      if inT2 = true ∧ trimS l ≠ "" then
        match findTaskId l.data with
        | some ds =>
            let idv := digitsToNat ds
            getNextTodoIdGo rest inT2 (if maxId < idv then idv else maxId)
        | none => getNextTodoIdGo rest inT2 maxId
      else getNextTodoIdGo rest inT2 maxId

/-- `getNextTodoId` on the section's line list. -/
def getNextTodoIdL (lines : List String) : Nat :=
  getNextTodoIdGo lines false 0

/-- `getNextTodoId(sectionContent)` of `src/utils/fileHandler.js`. -/
def getNextTodoId (sectionContent : String) : Nat :=
  getNextTodoIdL (jsSplitNl sectionContent)

/-- The exact day-heading line `<h2>${today}</h2>`. -/
def headingOf (today : String) : String :=
  "<h2>" ++ today ++ "</h2>"

/-- Scan loop of `getTodaySection` (fileHandler.js lines 114-125): remembers
the index of the last line equal to the heading (`-1` modelled as `none`)
and breaks at the first later line starting with `<h2>` or `<hr`; the end
index defaults to the number of lines (`total`). -/
def findSpan (heading : String) (total : Nat) : List String → Nat → Option Nat → Option Nat × Nat
  | [], _, st => (st, total)
  | l :: rest, i, none =>
    if l = heading then findSpan heading total rest (i + 1) (some i)
    else findSpan heading total rest (i + 1) none
  | l :: rest, i, some k =>
    if l = heading then findSpan heading total rest (i + 1) (some i)
    else if (jsStartsWith l "<h2>" || jsStartsWith l "<hr") && decide (k < i) then (some k, i)
    else findSpan heading total rest (i + 1) (some k)

/-- `getTodaySection` on the file's line list.  The initial anchored regex
test `^<h2>${escaped today}</h2>$` with the `m` flag holds exactly when some
full line equals the heading (the escaping makes the pattern literal). -/
def getTodaySectionL (today : String) (lines : List String) : Option TodaySection :=
  let heading := headingOf today
  if heading ∈ lines then
    match findSpan heading lines.length lines 0 none with
    | (none, _) => none
    | (some s, e) => some ⟨s, e, jsJoinNl ((lines.drop s).take (e - s))⟩
  else none

/-- `getTodaySection(content)` of `src/utils/fileHandler.js` (lines 106-134),
with the wall-clock `getTodayString()` made an explicit parameter. -/
def getTodaySection (today content : String) : Option TodaySection :=
  getTodaySectionL today (jsSplitNl content)

/-- The skeleton day section written by `initializeTodaySection`
(fileHandler.js line 207). -/
def newSectionFor (today : String) : String :=
  "<h2>" ++ today ++ "</h2>\n\n<h3>Todos</h3>\n<ac:task-list>\n</ac:task-list>\n\n<h3>Context</h3>\n\n<h3>References</h3>\n\n<h3>Notes</h3>\n<p></p>\n\n"

/-- `initializeTodaySection` of `src/utils/fileHandler.js` (lines 200-221) as
a pure function: given the current file content, returns the new file
content and the section content the call returns. -/
def initializeTodaySectionP (today content : String) : String × String :=
  match getTodaySection today content with
  | some ts => (content, ts.content)
  | none =>
    let ns := newSectionFor today
    if trimS content ≠ "" then (ns ++ "<hr>\n\n" ++ content, ns)
    else (ns, ns)

/-- `replaceTodaySection` of `src/utils/fileHandler.js` (lines 360-380) as a
pure function from the old file content to the written file content. -/
def replaceTodaySectionP (today content newSectionContent : String) : String :=
  match getTodaySection today content with
  | none => newSectionContent
  | some ts =>
    let lines := jsSplitNl content
    let before := jsJoinNl (lines.take ts.startIdx)
    let after := jsJoinNl (lines.drop ts.endIdx)
    trimS (jsJoinNl (([before, newSectionContent, after].filter (fun s => s ≠ ""))))
      ++ "\n"

/-- Backward scan of `addContentToSection` (fileHandler.js lines 412-417):
from line `i` down to (but excluding) `secIdx`, find the last non-empty line
and return the index after it. -/
def backNonEmpty (lines : List String) (secIdx : Nat) : Nat → Option Nat
  | 0 => none
  | i + 1 =>
    if i + 1 ≤ secIdx then none
    else if trimS (lines.getD (i + 1) "") ≠ "" then some (i + 2)
    else backNonEmpty lines secIdx i

/-- Forward scan of `addContentToSection` (fileHandler.js lines 395-402):
index of the section heading and of the next `<h3>` line after it. -/
def findSection (name : String) : List String → Nat → Option Nat → Option Nat × Option Nat
  | [], _, st => (st, none)
  | l :: rest, i, st =>
    if l = "<h3>" ++ name ++ "</h3>" then findSection name rest (i + 1) (some i)
    else
      match st with
      | some k =>
        if jsStartsWith l "<h3>" then (some k, some i)
        else findSection name rest (i + 1) (some k)
      | none => findSection name rest (i + 1) none

/-- `addContentToSection` of `src/utils/fileHandler.js` (lines 388-428),
restricted to its pure core: the edit made to the (already initialized)
today-section line list before it is written back. -/
def addContentToSectionL (sectionName content : String) (lines : List String) : List String :=
  match findSection sectionName lines 0 none with
  | (none, _) => lines ++ ["<h3>" ++ sectionName ++ "</h3>", "", content, ""]
  | (some secIdx, nextIdx?) =>
    let nextIdx := nextIdx?.getD lines.length
    let insertIdx := (backNonEmpty lines secIdx (nextIdx - 1)).getD nextIdx
    if insertIdx = secIdx + 1 then
      lines.take insertIdx ++ [content, ""] ++ lines.drop insertIdx
    else
      lines.take insertIdx ++ ["", content] ++ lines.drop insertIdx

/-- The one-line Confluence info macro written by `addContext`
(fileHandler.js line 437). -/
def ctxMacroLine (contextId contextText : String) : String :=
  "<ac:structured-macro ac:name=\"info\" ac:schema-version=\"1\"><ac:parameter ac:name=\"title\">[" ++ contextId ++ "]</ac:parameter><ac:rich-text-body><p>" ++ contextText ++ "</p></ac:rich-text-body></ac:structured-macro>"

/-- The embedded title parameter `addContext` writes and the context
functions search for. -/
def titleParam (contextId : String) : String :=
  "<ac:parameter ac:name=\"title\">[" ++ contextId ++ "]</ac:parameter>"

/-- `addContext(contextId, contextText)` of `src/utils/fileHandler.js`
(lines 436-439) at the section level: the edit it makes to today's section. -/
def addContextToSection (contextId contextText : String) (lines : List String) : List String :=
  addContentToSectionL "Context" (ctxMacroLine contextId contextText) lines

/-- Scan worker of `getContextById` (fileHandler.js lines 447-492):
collects the lines of the matched info panel. -/
def getCtxGo (cid : String) : List String → Bool → Bool → List String → List String
  | [], _, _, acc => acc
  | l :: rest, inC, inP, acc =>
    if l = "<h3>Context</h3>" then getCtxGo cid rest true inP acc
    else if inC = true ∧ jsStartsWith l "<h3>" = true then acc
    else if inC then
      if jsIncludes l (titleParam cid) then getCtxGo cid rest inC true acc
      else if inP then
        if jsIncludes l "</ac:structured-macro>" then acc
        else if jsIncludes l "<ac:structured-macro" then acc
        else if trimS l ≠ "" ∧ jsIncludes l "ac:parameter" = false ∧ jsIncludes l "ac:rich-text-body" = false then
          getCtxGo cid rest inC inP (acc ++ [l])
        else getCtxGo cid rest inC inP acc
      else getCtxGo cid rest inC inP acc
    else getCtxGo cid rest inC inP acc

/-- `getContextById(sectionContent, contextId)` of `src/utils/fileHandler.js`
on the section's line list (`null` modelled as `none`). -/
def getContextByIdL (lines : List String) (cid : String) : Option String :=
  let acc := getCtxGo cid lines false false []
  if acc ≠ [] then some (trimS (String.mk (stripTags (jsJoinNl acc).data)))
  else none

/-- `getContextById(sectionContent, contextId)` of `src/utils/fileHandler.js`
(lines 447-492). -/
def getContextById (sectionContent cid : String) : Option String :=
  getContextByIdL (jsSplitNl sectionContent) cid

/-- Backward scan of `deleteContext`/`updateContext` (fileHandler.js lines
592-597): from line `j` down to 0, the first line containing the info-macro
opener. -/
def backFind (lines : List String) : Nat → Option Nat
  | 0 => if jsIncludes (lines.getD 0 "") "<ac:structured-macro ac:name=\"info\"" then some 0 else none
  | j + 1 =>
    if jsIncludes (lines.getD (j + 1) "") "<ac:structured-macro ac:name=\"info\"" then some (j + 1)
    else backFind lines j

/-- Scan loop of `deleteContext` (fileHandler.js lines 573-607), computing
the start index and (optional) end index of the block to remove. -/
def delCtxScan (cid : String) (lines : List String) : List String → Nat → Bool → Option Nat → Option Nat × Option Nat
  | [], _, _, st => (st, none)
  | l :: rest, i, inC, st =>
    if l = "<h3>Context</h3>" then delCtxScan cid lines rest (i + 1) true st
    else if jsStartsWith l "<h3>" then
      match st with
      | some k => (some k, some i)
      | none => delCtxScan cid lines rest (i + 1) false st
    else if inC then
      if jsIncludes l (titleParam cid) then
        delCtxScan cid lines rest (i + 1) inC
          (match backFind lines i with
           | some j => some j
           | none => st)
      else
        match st with
        | some k =>
          if jsIncludes l "</ac:structured-macro>" then (some k, some (i + 1))
          else delCtxScan cid lines rest (i + 1) inC (some k)
        | none => delCtxScan cid lines rest (i + 1) inC none
    else delCtxScan cid lines rest (i + 1) inC st

/-- `deleteContext(contextId)` of `src/utils/fileHandler.js` (lines 565-621)
at the section level: the edit made to today's section line list
(`lines.splice(contextStartIdx, contextEndIdx - contextStartIdx)`). -/
def deleteContextL (cid : String) (lines : List String) : List String :=
  match delCtxScan cid lines lines 0 false none with
  | (none, _) => lines
  | (some s, e?) =>
    let e := e?.getD lines.length
    lines.take s ++ lines.drop (s + (e - s))

/-- Match of the title-parameter regex
`<ac:parameter ac:name="title">\[(.+?)\]<\/ac:parameter>` anchored at the
start of `s`, used by `getAllContexts`; returns the captured id characters. -/
def matchTitleAt (s : List Char) : Option (List Char) :=
  (dropLit "<ac:parameter ac:name=\"title\">[" s).bind fun s1 =>
    (lazyBody "]</ac:parameter>" s1).map fun p => p.1

/-- Leftmost match of the title-parameter regex in a line. -/
def findTitleMatch : List Char → Option (List Char)
  | [] => none
  | c :: cs =>
    match matchTitleAt (c :: cs) with
    | some r => some r
    | none => findTitleMatch cs

/-- The "save pending context" step of `getAllContexts`: push the current
context when its id is truthy and it has collected lines. -/
def ctxFlush (cur : Option String) (curLines : List String) (acc : List CtxItem) : List CtxItem :=
  match cur with
  | some cid =>
    if cid ≠ "" ∧ curLines ≠ [] then
      acc ++ [⟨cid, trimS (String.mk (stripTags (jsJoinNl curLines).data))⟩]
    else acc
  | none => acc

/-- Scan worker of `getAllContexts` (fileHandler.js lines 628-699).  Note
that the source breaks at the first line starting with `<h3>` other than
`<h3>Context</h3>` *regardless* of whether the Context subsection has been
reached yet (the break is not guarded by `inContextSection`). -/
def getAllCtxGo : List String → Bool → Option String → Bool → List String → List CtxItem → List CtxItem
  | [], _, cur, _, curLines, acc => ctxFlush cur curLines acc
  | l :: rest, inC, cur, inP, curLines, acc =>
    if l = "<h3>Context</h3>" then getAllCtxGo rest true cur inP curLines acc
    else if jsStartsWith l "<h3>" then ctxFlush cur curLines acc
    else if inC then
      match findTitleMatch l.data with
      | some tid =>
        getAllCtxGo rest inC (some (String.mk tid)) true [] (ctxFlush cur curLines acc)
      | none =>
        if inP then
          if jsIncludes l "</ac:structured-macro>" then
            getAllCtxGo rest inC none false [] (ctxFlush cur curLines acc)
          else if trimS l ≠ "" ∧ jsIncludes l "ac:parameter" = false ∧ jsIncludes l "ac:rich-text-body" = false ∧ jsIncludes l "<ac:structured-macro" = false then
            getAllCtxGo rest inC cur inP (curLines ++ [l]) acc
          else getAllCtxGo rest inC cur inP curLines acc
        else getAllCtxGo rest inC cur inP curLines acc
    else getAllCtxGo rest inC cur inP curLines acc

/-- `getAllContexts(sectionContent)` of `src/utils/fileHandler.js`
(lines 628-699) on the section's line list. -/
def getAllContextsL (lines : List String) : List CtxItem :=
  getAllCtxGo lines false none false [] []

/-- `getTodosReferencingContext(sectionContent, contextId)` of
`src/utils/fileHandler.js` (lines 320-328) on the section's line list:
filters the extracted todos by membership of the context id (and truthiness
of the `todoId` field) and keeps `{todoId, text}`. -/
def getTodosReferencingContextL (lines : List String) (contextId : String) : List RefTodo :=
  ((extractTodosL lines).filter
      (fun t => contextId ∈ t.contextIds ∧ t.todoId ≠ "")).map
    fun t => ⟨t.todoId, t.text⟩

/-- The todo line rebuilt by `updateTodoInSection` (fileHandler.js line 348)
from the captures of the todo-line regex. -/
def mkTaskLine (ds : List Char) (st : String) (body : List Char) : String :=
  "<ac:task><ac:task-id>" ++ String.mk ds ++ "</ac:task-id><ac:task-status>" ++ st
    ++ "</ac:task-status><ac:task-body>" ++ String.mk body ++ "</ac:task-body></ac:task>"

/-- The status literal `checked ? 'complete' : 'incomplete'`. -/
def statusStr (checked : Bool) : String :=
  if checked then "complete" else "incomplete"

/-- `updateTodoInSection` of `src/utils/fileHandler.js` (lines 337-353) on
the section's line list: re-match the addressed line and rebuild it with the
requested status. -/
def updateTodoInSectionL (lines : List String) (lineNumber : Nat) (checked : Bool) : List String :=
  match lines.get? lineNumber with
  | none => lines
  | some l =>
    match findTodoMatch l.data with
    | none => lines
    | some (ds, _, body) => lines.set lineNumber (mkTaskLine ds (statusStr checked) body)

/-- `updateTodoInSection(sectionContent, lineNumber, checked)` of
`src/utils/fileHandler.js`. -/
def updateTodoInSection (sectionContent : String) (lineNumber : Nat) (checked : Bool) : String :=
  jsJoinNl (updateTodoInSectionL (jsSplitNl sectionContent) lineNumber checked)


/-- Scan loop of `addTodo` (src/commands/addTodo.js lines 78-97), computing
`todoSectionIdx`, `ulIdx` and the break-time `insertIdx` (all `-1` sentinels
modelled as `none`). -/
def addTodoScan : List String → Nat → Option Nat → Option Nat → Option Nat × Option Nat × Option Nat
  | [], _, t, u => (t, u, none)
  | l :: rest, i, t, u =>
    if l = "<h3>Todos</h3>" then addTodoScan rest (i + 1) (some i) u
    else if t.isSome = true ∧ u = none ∧ (l = "<ul class=\"inline-task-list\">" ∨ l = "<ul>") then
      addTodoScan rest (i + 1) t (some i)
    else if t.isSome = true ∧ l = "</ul>" then (t, u, some i)
    else if t.isSome = true ∧ jsStartsWith l "<h3>" = true then (t, u, none)
    else addTodoScan rest (i + 1) t u

/-- The `<li data-inline-task-id=...>` line written by `addTodo`
(src/commands/addTodo.js lines 108-113). -/
def addTodoLine (todoId : Nat) (todoText : String) : Option String → String
  | some cid =>
    "<li data-inline-task-id=\"" ++ toString todoId
      ++ "\" data-inline-task-status=\"unchecked\"><span class=\"placeholder-inline-tasks\">"
      ++ todoText ++ " <a href=\"#context-" ++ cid ++ "\" style=\"color: #0066cc;\">📎 "
      ++ cid ++ "</a></span></li>"
  | none =>
    "<li data-inline-task-id=\"" ++ toString todoId
      ++ "\" data-inline-task-status=\"unchecked\"><span class=\"placeholder-inline-tasks\">"
      ++ todoText ++ "</span></li>"

/-- The section edit performed by `addTodo` (src/commands/addTodo.js lines
71-117) on today's section: locate the insertion point, take the next
sequential todo id from `getNextTodoId`, and splice the new `<li>` line in.
A missing `</ul>`/`<ul>` falls back to `todoSectionIdx + 2` (with the `-1`
sentinel, a section without a Todos heading yields index `1`). -/
def addTodoToSection (sec todoText : String) (contextId : Option String) : String :=
  let lines := jsSplitNl sec
  let r := addTodoScan lines 0 none none
  let insertIdx : Nat :=
    if r.2.2 = none ∨ r.2.1 = none then
      match r.1 with
      | some k => k + 2
      | none => 1
    else (r.2.2).getD 0
  let todoId := getNextTodoId sec
  let todoLine := addTodoLine todoId todoText contextId
  jsJoinNl (lines.take insertIdx ++ [todoLine] ++ lines.drop insertIdx)

/-- `generateUniqueThreeWordId` loop (wordGenerator, lines 237-248): the
stream of random draws `generateThreeWordId()` is modelled as `gen i` for
the `i`-th draw; the `throw` after the loop becomes `Except.error`. -/
def generateUniqueGo (checkExists : String → Bool) (gen : Nat → String) (msg : String) : Nat → Nat → Except String String
  | 0, _ => .error msg
  | fuel + 1, i =>
    let id := gen i
    if checkExists id then generateUniqueGo checkExists gen msg fuel (i + 1)
    else .ok id

/-- `generateUniqueThreeWordId(checkExists, maxAttempts = 100)` of the word
generator module. -/
def generateUniqueThreeWordId (checkExists : String → Bool) (maxAttempts : Nat) (gen : Nat → String) : Except String String :=
  generateUniqueGo checkExists gen
    ("Unable to generate unique ID after " ++ toString maxAttempts ++ " attempts")
    maxAttempts 0

/-- Instrumentation of the same loop: the number of candidate draws
(`generateThreeWordId()` calls) the loop performs. -/
def drawsGo (checkExists : String → Bool) (gen : Nat → String) : Nat → Nat → Nat
  | 0, _ => 0
  | fuel + 1, i => if checkExists (gen i) then drawsGo checkExists gen fuel (i + 1) + 1 else 1

/-- Number of draws performed by `generateUniqueThreeWordId`. -/
def drawsMade (checkExists : String → Bool) (maxAttempts : Nat) (gen : Nat → String) : Nat :=
  drawsGo checkExists gen maxAttempts 0

/-- `idExistsInAnyFile(id)` of `src/utils/fileHandler.js` (lines 930-951),
with the corpus of monthly-file contents made explicit.  The source builds
three regexes from the regex-escaped id, which makes each of them a literal
substring test: `<p><strong>[id]</strong></p>`, `[context: id]`, and
`data-ref-id="id"`. -/
def idExistsInAnyFileM (files : List String) (id : String) : Bool :=
  files.any fun content =>
    jsIncludes content ("<p><strong>[" ++ id ++ "]</strong></p>")
      || jsIncludes content ("[context: " ++ id ++ "]")
      || jsIncludes content ("data-ref-id=\"" ++ id ++ "\"")

/-- The full `addContext(contextId, contextText)` pipeline of
`src/utils/fileHandler.js` (lines 436-439) at the file level:
`addContentToSection` first calls `initializeTodaySection` (read + possible
skeleton write), edits the section, and hands it to `replaceTodaySection`
(read-modify-write of the file). -/
def addContextFile (today file cid text : String) : String :=
  let p := initializeTodaySectionP today file
  let sec2 := jsJoinNl (addContextToSection cid text (jsSplitNl p.2))
  replaceTodaySectionP today p.1 sec2

/-! ### Concrete fixtures used by the evaluation theorems -/

/-- A fixed day string (the wall-clock `getTodayString()` value). -/
def dayT : String := "Mon, Jan 1"

/-- The skeleton section for `dayT`. -/
def skelSec : String := newSectionFor dayT

/-- Context block `[aaa-bbb-ccc]` in the current `addContext` write grammar. -/
def ctxA : String := ctxMacroLine "aaa-bbb-ccc" "first"

/-- Context block `[ddd-eee-fff]` in the current `addContext` write grammar. -/
def ctxB : String := ctxMacroLine "ddd-eee-fff" "second"

/-- A today-section whose Context subsection holds the two blocks `ctxA`
then `ctxB`. -/
def twoCtxSec : List String :=
  ["<h2>Mon, Jan 1</h2>", "", "<h3>Todos</h3>", "<ac:task-list>", "</ac:task-list>", "",
   "<h3>Context</h3>", "", ctxA, "", ctxB, "", "<h3>References</h3>", "", "<h3>Notes</h3>", "<p></p>", ""]

/-- Today's section after `addContext("calm-thinks-moon", "backup db")` on a
fresh skeleton. -/
def secWithCtx : List String :=
  addContextToSection "calm-thinks-moon" "backup db" (jsSplitNl skelSec)

/-- Todo line 1 (`alpha`), referencing context `calm-thinks-moon`. -/
def refT1 : String := "<ac:task><ac:task-id>1</ac:task-id><ac:task-status>incomplete</ac:task-status><ac:task-body><span class=\"placeholder-inline-tasks\">alpha <a href=\"#context-calm-thinks-moon\" style=\"color: #0066cc;\">📎 calm-thinks-moon</a></span></ac:task-body></ac:task>"

/-- Todo line 2 (`beta`), referencing context `calm-thinks-moon`. -/
def refT2 : String := "<ac:task><ac:task-id>2</ac:task-id><ac:task-status>incomplete</ac:task-status><ac:task-body><span class=\"placeholder-inline-tasks\">beta <a href=\"#context-calm-thinks-moon\" style=\"color: #0066cc;\">📎 calm-thinks-moon</a></span></ac:task-body></ac:task>"

/-- Context block for `calm-thinks-moon`. -/
def ctxC : String := ctxMacroLine "calm-thinks-moon" "backup db"

/-- A today-section with todos 1 and 2 both referencing context
`calm-thinks-moon`, and that context's block in the Context subsection. -/
def refSec : List String :=
  ["<h2>Mon, Jan 1</h2>", "", "<h3>Todos</h3>", "<ac:task-list>", refT1, refT2, "</ac:task-list>", "",
   "<h3>Context</h3>", "", ctxC, "", "<h3>References</h3>", "", "<h3>Notes</h3>", "<p></p>", ""]

/-- The monthly-file content produced by `addContext("quick-runs-fox", ...)`
on a fresh (empty) monthly file. -/
def fileWithCtx : String := addContextFile dayT "" "quick-runs-fox" "backup db"

/-- Todo line id 1, unchecked, text "Buy milk" (write grammar of
`updateTodoInSection`/`carryoverTodos`). -/
def c7w1 : String := "<ac:task><ac:task-id>1</ac:task-id><ac:task-status>incomplete</ac:task-status><ac:task-body><span class=\"placeholder-inline-tasks\">Buy milk</span></ac:task-body></ac:task>"

/-- Todo line id 2, complete, text "beta". -/
def c7w2 : String := "<ac:task><ac:task-id>2</ac:task-id><ac:task-status>complete</ac:task-status><ac:task-body><span class=\"placeholder-inline-tasks\">beta</span></ac:task-body></ac:task>"

/-- A today-section with the two todos above. -/
def c7L0 : List String :=
  ["<h2>Mon, Jan 1</h2>", "", "<h3>Todos</h3>", "<ac:task-list>", c7w1, c7w2,
   "</ac:task-list>", "", "<h3>Context</h3>", "", "<h3>References</h3>", "",
   "<h3>Notes</h3>", "<p></p>", ""]

/-- The parse of `c7w1`: todo 1, unchecked, "Buy milk", at line 4. -/
def c7t0 : TodoItem := ⟨false, "Buy milk", 4, [], "todo-1"⟩

/-- One "line followed by a newline" chunk per list element, then `tail`:
the character shape of a text whose lines are `xs` followed by `tail`. -/
def linesData (xs : List String) (tail : List Char) : List Char :=
  xs.foldr (fun x acc => x.data ++ '\n' :: acc) tail

/-- The lines of the skeleton section after its heading line, without the
trailing empty line (each is followed by a newline in the skeleton text). -/
def nsMid : List String :=
  ["", "<h3>Todos</h3>", "<ac:task-list>", "</ac:task-list>", "", "<h3>Context</h3>", "",
   "<h3>References</h3>", "", "<h3>Notes</h3>", "<p></p>", ""]

/-! ### Claim theorems -/

/-- Claim C1 (code bug, evaluation): on a fresh skeleton section,
`getNextTodoId` issues id 1 to `addTodo("Buy milk")`; on the resulting
section `getNextTodoId` again returns 1 — not strictly greater than the id
just issued — because the `<li data-inline-task-id="1" ...>` line written by
`addTodo` is invisible to the `<ac:task-id>(\d+)</ac:task-id>` scan; the
written todo is also invisible to `extractTodos`. -/
theorem c1_code_eval :
    getNextTodoId skelSec = 1
      ∧ getNextTodoId (addTodoToSection skelSec "Buy milk" none) = 1
      ∧ jsIncludes (addTodoToSection skelSec "Buy milk" none) "data-inline-task-id=\"1\"" = true
      ∧ extractTodos (addTodoToSection skelSec "Buy milk" none) = [] := by
  refine ⟨rfl, rfl, rfl, rfl⟩

/-- Claim C2 (code bug, evaluation): with two one-line context blocks `ctxA`
(`aaa-bbb-ccc`) and `ctxB` (`ddd-eee-fff`) in the Context subsection,
`deleteContext("aaa-bbb-ccc")` removes the lines of *both* blocks: the scan
skips the close tag on the matched block's own line and takes the end of the
following block as the extent, so `ctxB` — which the claim requires to
survive — is gone from the result. -/
theorem c2_code_eval :
    deleteContextL "aaa-bbb-ccc" twoCtxSec
        = ["<h2>Mon, Jan 1</h2>", "", "<h3>Todos</h3>", "<ac:task-list>", "</ac:task-list>", "",
           "<h3>Context</h3>", "", "", "<h3>References</h3>", "", "<h3>Notes</h3>", "<p></p>", ""]
      ∧ ctxB ∈ twoCtxSec
      ∧ ctxB ∉ deleteContextL "aaa-bbb-ccc" twoCtxSec := by
  refine ⟨by decide, by decide, by decide⟩

/-- Claim C3 (code bug, evaluation): after `addContext("calm-thinks-moon",
"backup db")` writes its one-line block into a fresh skeleton section, the
block line is present, yet `getContextById` returns `none` and
`getAllContexts` returns `[]`: both readers only collect text from lines
*after* the line carrying the title parameter, so a block written in the
current one-line grammar yields no text. -/
theorem c3_code_eval :
    ctxMacroLine "calm-thinks-moon" "backup db" ∈ secWithCtx
      ∧ getContextByIdL secWithCtx "calm-thinks-moon" = none
      ∧ getAllContextsL secWithCtx = [] := by
  refine ⟨by decide, by decide, by decide⟩

/-- Claim C4 (counterexample): after `deleteContext("calm-thinks-moon")` on a
document where todos 1 and 2 reference that context,
`getTodosReferencingContext` does *not* return the empty sequence as the
claim states: it re-parses only the Todos subsection, where the dangling
reference tokens still sit. -/
theorem c4_counterexample :
    getTodosReferencingContextL (deleteContextL "calm-thinks-moon" refSec) "calm-thinks-moon"
      ≠ ([] : List RefTodo) := by
  decide

/-- Claim C4 (amended): before the deletion `getTodosReferencingContext`
returns both referencing todos in document order; `deleteContext` removes
the context block's line (and the blank after it) while leaving every todo
line - dangling reference token included - untouched; and after the deletion
`getTodosReferencingContext` *still* returns both todos, since it consults
only the todo lines. -/
theorem c4_amended :
    getTodosReferencingContextL refSec "calm-thinks-moon"
        = [⟨"todo-1", "alpha"⟩, ⟨"todo-2", "beta"⟩]
      ∧ deleteContextL "calm-thinks-moon" refSec
          = ["<h2>Mon, Jan 1</h2>", "", "<h3>Todos</h3>", "<ac:task-list>", refT1, refT2, "</ac:task-list>", "",
             "<h3>Context</h3>", "", "<h3>References</h3>", "", "<h3>Notes</h3>", "<p></p>", ""]
      ∧ ctxC ∉ deleteContextL "calm-thinks-moon" refSec
      ∧ jsIncludes refT1 "#context-calm-thinks-moon" = true
      ∧ jsIncludes refT2 "#context-calm-thinks-moon" = true
      ∧ getTodosReferencingContextL (deleteContextL "calm-thinks-moon" refSec) "calm-thinks-moon"
          = [⟨"todo-1", "alpha"⟩, ⟨"todo-2", "beta"⟩] := by
  refine ⟨by decide, by decide, by decide, by decide, by decide, by decide⟩

/-- Claim C5 (code bug, evaluation): the corpus consists of one monthly file
obtained by running the full `addContext("quick-runs-fox", "backup db")`
pipeline on a fresh file.  The id `quick-runs-fox` is persisted in that file
(its `[quick-runs-fox]` title is a substring), yet `idExistsInAnyFile`
returns `false`: the existence check still looks for the old context
grammars `<p><strong>[id]</strong></p>` / `[context: id]` and for
`data-ref-id="id"`, none of which the current `addContext` write grammar
produces — so `generateUniqueThreeWordId(idExistsInAnyFile)` can re-issue an
id that is already written. -/
theorem c5_code_eval :
    jsIncludes fileWithCtx "[quick-runs-fox]" = true
      ∧ idExistsInAnyFileM [fileWithCtx] "quick-runs-fox" = false := by
  refine ⟨by decide, by decide⟩

/-- Claim C6 (counterexample): starting from a file that already holds
another day's region, the first `initializeTodaySection` call returns the
freshly inserted skeleton (ending in a blank line), while the immediately
following second call returns the located span, which stops one newline
short — the two returned section contents are not equal. -/
theorem c6_counterexample :
    (initializeTodaySectionP dayT
        ((initializeTodaySectionP dayT "<h2>Sun</h2>\n<p>x</p>").1)).2
      ≠ (initializeTodaySectionP dayT "<h2>Sun</h2>\n<p>x</p>").2 := by
  decide

/-! ### Loop lemmas for the identifier generator -/

theorem generateUniqueGo_hits (check : String → Bool) (gen : Nat → String) (msg : String) :
    ∀ (k fuel i : Nat), (∀ j, j < k → check (gen (i + j)) = true) →
      check (gen (i + k)) = false → k < fuel →
      generateUniqueGo check gen msg fuel i = .ok (gen (i + k))
        ∧ drawsGo check gen fuel i = k + 1 := by
  intro k
  induction k with
  | zero =>
    intro fuel i _ hk hlt
    match fuel, hlt with
    | f + 1, _ =>
      simp only [generateUniqueGo, drawsGo]
      rw [show i + 0 = i from rfl] at hk
      rw [hk]
      simp
  | succ k ih =>
    intro fuel i h1 hk hlt
    match fuel, hlt with
    | f + 1, hlt =>
      have h0 : check (gen i) = true := by
        have := h1 0 (Nat.succ_pos k)
        rwa [show i + 0 = i from rfl] at this
      simp only [generateUniqueGo, drawsGo, h0, if_pos]
      have hrec := ih f (i + 1)
        (fun j hj => by
          have := h1 (j + 1) (by omega)
          rwa [show i + (j + 1) = i + 1 + j from by omega] at this)
        (by rwa [show i + 1 + k = i + (k + 1) from by omega])
        (by omega)
      rw [hrec.1, hrec.2]
      constructor
      · rw [show i + 1 + k = i + (k + 1) from by omega]
      · rfl

theorem generateUniqueGo_exhausts (check : String → Bool) (gen : Nat → String) (msg : String)
    (h : ∀ s, check s = true) :
    ∀ fuel i, generateUniqueGo check gen msg fuel i = .error msg
      ∧ drawsGo check gen fuel i = fuel := by
  intro fuel
  induction fuel with
  | zero => intro i; exact ⟨rfl, rfl⟩
  | succ f ih =>
    intro i
    simp only [generateUniqueGo, drawsGo, h (gen i), if_pos]
    exact ⟨(ih (i + 1)).1, by rw [(ih (i + 1)).2]⟩

/-- Claim C8: with the default `maxAttempts = 100`, if the existence check
reports a collision for the first 99 drawn candidates and clears the next
one, `generateUniqueThreeWordId` returns the 100th candidate after exactly
100 draws; and for an existence check that always reports a collision, it
performs exactly `maxAttempts` draws and fails with the
generation-exhausted error, returning no id. -/
theorem c8_generate_unique (check : String → Bool) (gen : Nat → String) :
    ((∀ i, i < 99 → check (gen i) = true) → check (gen 99) = false →
        generateUniqueThreeWordId check 100 gen = .ok (gen 99)
          ∧ drawsMade check 100 gen = 100)
      ∧ ((∀ s, check s = true) → ∀ maxAttempts,
          generateUniqueThreeWordId check maxAttempts gen
              = .error ("Unable to generate unique ID after " ++ toString maxAttempts ++ " attempts")
            ∧ drawsMade check maxAttempts gen = maxAttempts) := by
  constructor
  · intro h1 h2
    have := generateUniqueGo_hits check gen
      ("Unable to generate unique ID after " ++ toString 100 ++ " attempts")
      99 100 0 (fun j hj => by simpa using h1 j hj) (by simpa using h2) (by omega)
    simpa [generateUniqueThreeWordId, drawsMade] using this
  · intro h maxAttempts
    have := generateUniqueGo_exhausts check gen
      ("Unable to generate unique ID after " ++ toString maxAttempts ++ " attempts")
      h maxAttempts 0
    simpa [generateUniqueThreeWordId, drawsMade] using this

/-- Witness for C8 at a concrete generator stream and existence check. -/
theorem c8_generate_unique_witness :
    ((∀ i, i < 99 → (fun s => !(s == "99")) ((fun n => toString n) i) = true)
        ∧ (fun s => !(s == "99")) ((fun n => toString n) 99) = false
        ∧ generateUniqueThreeWordId (fun s => !(s == "99")) 100 (fun n => toString n)
            = .ok ((fun n => toString n) 99)
        ∧ drawsMade (fun s => !(s == "99")) 100 (fun n => toString n) = 100)
      ∧ ((∀ s, (fun _ : String => true) s = true)
        ∧ generateUniqueThreeWordId (fun _ : String => true) 100 (fun n => toString n)
            = .error ("Unable to generate unique ID after " ++ toString 100 ++ " attempts")
        ∧ drawsMade (fun _ : String => true) 100 (fun n => toString n) = 100) := by
  have hA := (c8_generate_unique (fun s => !(s == "99")) (fun n => toString n)).1
    (by decide) (by decide)
  have hB := (c8_generate_unique (fun _ : String => true) (fun n => toString n)).2
    (fun _ => rfl) 100
  exact ⟨⟨by decide, by decide, hA.1, hA.2⟩, ⟨fun _ => rfl, hB.1, hB.2⟩⟩

/-! ### Lemmas about the day-region scan -/

theorem findSpan_isSome (h : String) (total : Nat) :
    ∀ (ls : List String) (i : Nat) (st : Option Nat),
      (findSpan h total ls i st).1.isSome ↔ (h ∈ ls ∨ st.isSome) := by
  intro ls
  induction ls with
  | nil => intro i st; simp [findSpan]
  | cons l rest ih =>
    intro i st
    rcases st with _ | k
    · by_cases hl : l = h
      · simp only [findSpan, if_pos hl, ih]
        simp [hl]
      · simp only [findSpan, if_neg hl, ih]
        simp [hl, Ne.symm hl]
    · by_cases hl : l = h
      · simp only [findSpan, if_pos hl, ih]
        simp [hl]
      · simp only [findSpan, if_neg hl]
        by_cases hb : ((jsStartsWith l "<h2>" || jsStartsWith l "<hr") && decide (k < i)) = true
        · simp [hb]
        · simp only [Bool.not_eq_true] at hb
          simp [hb, ih]

theorem findSpan_start (h : String) (total : Nat) (ls0 : List String) :
    ∀ (ls : List String) (i : Nat) (st : Option Nat),
      ls0.drop i = ls →
      (∀ k0, st = some k0 → ls0[k0]? = some h) →
      ∀ k, (findSpan h total ls i st).1 = some k → ls0[k]? = some h := by
  intro ls
  induction ls with
  | nil =>
    intro i st _ hst k hk
    exact hst k hk
  | cons l rest ih =>
    intro i st hd hst k hk
    have hi : ls0[i]? = some l := by
      have := List.getElem?_drop ls0 i 0
      rw [hd] at this
      simpa using this.symm
    have hd1 : ls0.drop (i + 1) = rest := by
      have : ls0.drop (i + 1) = (ls0.drop i).drop 1 := by
        rw [List.drop_drop]
      rw [this, hd]
      rfl
    rcases st with _ | k0
    · by_cases hl : l = h
      · simp only [findSpan, if_pos hl] at hk
        refine ih (i + 1) (some i) hd1 ?_ k hk
        intro k1 hk1
        injection hk1 with hk1
        subst hk1
        rw [hi, hl]
      · simp only [findSpan, if_neg hl] at hk
        exact ih (i + 1) none hd1 (fun k1 hk1 => by cases hk1) k hk
    · by_cases hl : l = h
      · simp only [findSpan, if_pos hl] at hk
        refine ih (i + 1) (some i) hd1 ?_ k hk
        intro k1 hk1
        injection hk1 with hk1
        subst hk1
        rw [hi, hl]
      · simp only [findSpan, if_neg hl] at hk
        by_cases hb : ((jsStartsWith l "<h2>" || jsStartsWith l "<hr") && decide (k0 < i)) = true
        · rw [if_pos hb] at hk
          injection hk with hk
          exact hst k (by rw [hk])
        · rw [if_neg hb] at hk
          exact ih (i + 1) (some k0) hd1 hst k hk

/-- Claim C9: day-region lookup matches only by exact full-line equality with
the canonical heading: the lookup succeeds exactly when some line *equals*
`<h2>today</h2>`; when it returns a span, the line at its start index is
that exact heading; and a heading that merely contains the day string as a
prefix ("Monday, Nov 3" inside "Monday, Nov 30") yields `none`. -/
theorem c9_exact_heading_match (today : String) (lines : List String) :
    ((getTodaySectionL today lines).isSome ↔ headingOf today ∈ lines)
      ∧ (∀ sec, getTodaySectionL today lines = some sec →
          lines[sec.startIdx]? = some (headingOf today))
      ∧ getTodaySectionL "Monday, Nov 3" ["<h2>Monday, Nov 30</h2>", "<p>x</p>"] = none := by
  refine ⟨?_, ?_, by decide⟩
  · unfold getTodaySectionL
    by_cases hmem : headingOf today ∈ lines
    · rw [if_pos hmem]
      rcases hfs : findSpan (headingOf today) lines.length lines 0 none with ⟨st, e⟩
      match st, hfs with
      | some s, hfs => simp [hfs, hmem]
      | none, hfs =>
        have := (findSpan_isSome (headingOf today) lines.length lines 0 none).2 (Or.inl hmem)
        rw [hfs] at this
        simp at this
    · rw [if_neg hmem]
      simp [hmem]
  · intro sec hsec
    unfold getTodaySectionL at hsec
    by_cases hmem : headingOf today ∈ lines
    · rw [if_pos hmem] at hsec
      rcases hfs : findSpan (headingOf today) lines.length lines 0 none with ⟨st, e⟩
      match st, hfs with
      | some s, hfs =>
        rw [hfs] at hsec
        simp only [Option.some.injEq] at hsec
        have hstart : sec.startIdx = s := by rw [← hsec]
        rw [hstart]
        exact findSpan_start (headingOf today) lines.length lines lines 0 none rfl
          (fun k0 hk0 => by cases hk0) s (by rw [hfs])
      | none, hfs =>
        rw [hfs] at hsec
        cases hsec
    · rw [if_neg hmem] at hsec
      cases hsec

/-- Witness for C9: a found heading sits at the returned start index. -/
theorem c9_exact_heading_match_witness :
    getTodaySectionL "D" ["<h2>D</h2>"] = some ⟨0, 1, "<h2>D</h2>"⟩
      ∧ ["<h2>D</h2>"][(0 : Nat)]? = some (headingOf "D") := by
  refine ⟨by decide, ?_⟩
  exact (c9_exact_heading_match "D" ["<h2>D</h2>"]).2.1 ⟨0, 1, "<h2>D</h2>"⟩ (by decide)

/-- Claim C10: when no line of the file equals today's heading,
`replaceTodaySection` writes `newSectionContent` as the entire new file
content, discarding every pre-existing day region; the splice path is taken
only when the heading is present (the lookup then succeeds). -/
theorem c10_replace_fallback (today content newSectionContent : String)
    (h : headingOf today ∉ jsSplitNl content) :
    replaceTodaySectionP today content newSectionContent = newSectionContent := by
  unfold replaceTodaySectionP getTodaySection getTodaySectionL
  rw [if_neg h]

/-- Witness for C10: a file holding another day's region is wholly replaced. -/
theorem c10_replace_fallback_witness :
    headingOf "Mon, Jan 1" ∉ jsSplitNl "<h2>Sun</h2>\n<p>x</p>"
      ∧ replaceTodaySectionP "Mon, Jan 1" "<h2>Sun</h2>\n<p>x</p>" "NEW" = "NEW" := by
  refine ⟨by decide, ?_⟩
  exact c10_replace_fallback "Mon, Jan 1" "<h2>Sun</h2>\n<p>x</p>" "NEW" (by decide)

/-! ### Lemmas about the character-level matchers -/

theorem dataAppend (a b : String) : (a ++ b).data = a.data ++ b.data := rfl

theorem prefixBool_iff : ∀ (p s : List Char), p.isPrefixOf s = true ↔ ∃ t, s = p ++ t := by
  intro p
  induction p with
  | nil => intro s; simp [List.isPrefixOf]
  | cons a as ih =>
    intro s
    cases s with
    | nil => simp [List.isPrefixOf]
    | cons b bs =>
      simp only [List.isPrefixOf, Bool.and_eq_true, beq_iff_eq, ih]
      constructor
      · rintro ⟨hab, t, ht⟩
        exact ⟨t, by rw [hab, ht]; rfl⟩
      · rintro ⟨t, ht⟩
        injection ht with h1 h2
        exact ⟨h1.symm, t, h2⟩

theorem prefixBool_append (p t : List Char) : p.isPrefixOf (p ++ t) = true :=
  (prefixBool_iff p (p ++ t)).2 ⟨t, rfl⟩

theorem dropLit_spec {p : String} {s r : List Char} (h : dropLit p s = some r) :
    s = p.data ++ r := by
  unfold dropLit at h
  by_cases hp : p.data.isPrefixOf s = true
  · rw [if_pos hp] at h
    obtain ⟨t, ht⟩ := (prefixBool_iff p.data s).1 hp
    injection h with h
    rw [← h, ht, List.drop_left]
  · rw [if_neg hp] at h
    cases h

theorem dropLit_build (p : String) (r : List Char) : dropLit p (p.data ++ r) = some r := by
  unfold dropLit
  rw [if_pos (prefixBool_append p.data r), List.drop_left]

theorem spanP_spec (p : Char → Bool) :
    ∀ s, s = (spanP p s).1 ++ (spanP p s).2 ∧ ∀ c ∈ (spanP p s).1, p c = true := by
  intro s
  induction s with
  | nil => simp [spanP]
  | cons c cs ih =>
    by_cases hc : p c = true
    · simp only [spanP, if_pos hc]
      refine ⟨by rw [List.cons_append, ← ih.1], ?_⟩
      intro d hd
      rcases List.mem_cons.1 hd with h | h
      · rw [h]; exact hc
      · exact ih.2 d h
    · simp only [spanP, if_neg hc]
      simp

theorem spanP_build (p : Char → Bool) :
    ∀ (a : List Char) (c0 : Char) (r : List Char), (∀ c ∈ a, p c = true) → p c0 = false →
      spanP p (a ++ c0 :: r) = (a, c0 :: r) := by
  intro a
  induction a with
  | nil =>
    intro c0 r _ hc0
    simp [spanP, hc0]
  | cons c cs ih =>
    intro c0 r ha hc0
    have hc : p c = true := ha c (List.mem_cons_self c cs)
    have hrec := ih c0 r (fun d hd => ha d (List.mem_cons_of_mem c hd)) hc0
    rw [List.cons_append]
    simp only [spanP, if_pos hc, hrec]

theorem splitAtFirst_spec (m : List Char) :
    ∀ (s b r : List Char), splitAtFirst m s = some (b, r) → s = b ++ (m ++ r) := by
  intro s
  induction s with
  | nil =>
    intro b r h
    unfold splitAtFirst at h
    by_cases hp : m.isPrefixOf ([] : List Char) = true
    · rw [if_pos hp] at h
      obtain ⟨t, ht⟩ := (prefixBool_iff m []).1 hp
      have hm : m = [] := by
        cases m with
        | nil => rfl
        | cons x xs => cases ht
      injection h with h
      injection h with h1 h2
      rw [← h1, ← h2, hm]
      rfl
    · rw [if_neg hp] at h
      cases h
  | cons c cs ih =>
    intro b r h
    unfold splitAtFirst at h
    by_cases hp : m.isPrefixOf (c :: cs) = true
    · rw [if_pos hp] at h
      obtain ⟨t, ht⟩ := (prefixBool_iff m (c :: cs)).1 hp
      injection h with h
      injection h with h1 h2
      rw [← h1, ← h2, List.nil_append, ht, List.drop_left]
    · rw [if_neg hp] at h
      cases hrec : splitAtFirst m cs with
      | none => rw [hrec] at h; cases h
      | some p2 =>
        rw [hrec] at h
        injection h with h
        injection h with h1 h2
        have hdec := ih p2.1 p2.2 (by rw [hrec])
        rw [← h1, ← h2, List.cons_append, ← hdec]

theorem splitAtFirst_refl (m : List Char) : splitAtFirst m m = some ([], []) := by
  cases m with
  | nil => simp [splitAtFirst, List.isPrefixOf]
  | cons x xs =>
    have hpre : (x :: xs).isPrefixOf (x :: xs) = true := by
      have := prefixBool_append (x :: xs) []
      rwa [List.append_nil] at this
    simp only [splitAtFirst, hpre, if_pos]
    rw [List.drop_length]

theorem splitAtFirst_self (m : List Char) :
    ∀ (s b r : List Char), splitAtFirst m s = some (b, r) →
      splitAtFirst m (b ++ m) = some (b, []) := by
  intro s
  induction s with
  | nil =>
    intro b r h
    unfold splitAtFirst at h
    by_cases hp : m.isPrefixOf ([] : List Char) = true
    · rw [if_pos hp] at h
      injection h with h
      injection h with h1 _
      rw [← h1, List.nil_append]
      exact splitAtFirst_refl m
    · rw [if_neg hp] at h
      cases h
  | cons c cs ih =>
    intro b r h
    unfold splitAtFirst at h
    by_cases hp : m.isPrefixOf (c :: cs) = true
    · rw [if_pos hp] at h
      injection h with h
      injection h with h1 _
      rw [← h1, List.nil_append]
      exact splitAtFirst_refl m
    · rw [if_neg hp] at h
      cases hrec : splitAtFirst m cs with
      | none => rw [hrec] at h; cases h
      | some p2 =>
        rw [hrec] at h
        injection h with h
        injection h with h1 h2
        have hdec := splitAtFirst_spec m cs p2.1 p2.2 (by rw [hrec])
        have hih := ih p2.1 p2.2 (by rw [hrec])
        have hnp : m.isPrefixOf (c :: (p2.1 ++ m)) = false := by
          by_contra hcon
          rw [Bool.not_eq_false] at hcon
          obtain ⟨t, ht⟩ := (prefixBool_iff m (c :: (p2.1 ++ m))).1 hcon
          apply hp
          apply (prefixBool_iff m (c :: cs)).2
          refine ⟨t ++ p2.2, ?_⟩
          have hcc : c :: cs = (c :: (p2.1 ++ m)) ++ p2.2 := by
            rw [hdec]
            simp
          rw [hcc, ht]
          simp
        rw [← h1, List.cons_append]
        simp only [splitAtFirst, hnp]
        simp only [Bool.false_eq_true, if_false, hih]
        rfl

theorem lazyBody_self (close : String) :
    ∀ (s b r : List Char), lazyBody close s = some (b, r) →
      lazyBody close (b ++ close.data) = some (b, []) := by
  intro s b r h
  cases s with
  | nil => cases h
  | cons c cs =>
    simp only [lazyBody] at h
    cases hrec : splitAtFirst close.data cs with
    | none => rw [hrec] at h; cases h
    | some p2 =>
      rw [hrec] at h
      injection h with h
      injection h with h1 h2
      rw [← h1, List.cons_append]
      simp only [lazyBody]
      rw [splitAtFirst_self close.data cs p2.1 p2.2 (by rw [hrec])]
      rfl

theorem mkData (l : List Char) : (String.mk l).data = l := rfl

theorem matchStatus_spec {s : List Char} {st : String} {r : List Char}
    (h : matchStatus s = some (st, r)) : st = "complete" ∨ st = "incomplete" := by
  unfold matchStatus at h
  cases h1 : dropLit "complete" s with
  | some r1 =>
    rw [h1] at h
    injection h with h
    injection h with h2 _
    exact Or.inl h2.symm
  | none =>
    rw [h1] at h
    cases h2 : dropLit "incomplete" s with
    | some r2 =>
      rw [h2] at h
      injection h with h
      injection h with h3 _
      exact Or.inr h3.symm
    | none => rw [h2] at h; cases h

theorem matchStatus_build_c (r : List Char) :
    matchStatus (("complete" : String).data ++ r) = some ("complete", r) := by
  unfold matchStatus
  rw [dropLit_build "complete" r]

theorem matchStatus_build_i (r : List Char) :
    matchStatus (("incomplete" : String).data ++ r) = some ("incomplete", r) := by
  have hne : (("complete" : String).data).isPrefixOf (("incomplete" : String).data ++ r) = false := by
    rw [show ("complete" : String).data = 'c' :: ("omplete" : String).data from rfl,
        show ("incomplete" : String).data = 'i' :: ("ncomplete" : String).data from rfl,
        List.cons_append]
    simp [List.isPrefixOf]
  unfold matchStatus
  rw [show dropLit "complete" (("incomplete" : String).data ++ r) = none from by
    unfold dropLit; rw [hne]; simp]
  rw [dropLit_build "incomplete" r]

theorem matchTodoAt_spec {s ds : List Char} {st : String} {body : List Char}
    (h : matchTodoAt s = some (ds, st, body)) :
    ds ≠ [] ∧ (∀ c ∈ ds, c.isDigit = true) ∧ (st = "complete" ∨ st = "incomplete")
      ∧ ∃ s5 r, lazyBody "</ac:task-body></ac:task>" s5 = some (body, r) := by
  unfold matchTodoAt at h
  cases h1 : dropLit "<ac:task><ac:task-id>" s with
  | none => rw [h1] at h; cases h
  | some s1 =>
    rw [h1] at h
    simp only [Option.some_bind] at h
    by_cases hd : (spanP Char.isDigit s1).1 = []
    · rw [if_pos hd] at h; cases h
    · rw [if_neg hd] at h
      cases h2 : dropLit "</ac:task-id><ac:task-status>" (spanP Char.isDigit s1).2 with
      | none => rw [h2] at h; cases h
      | some s3 =>
        rw [h2] at h
        simp only [Option.some_bind] at h
        cases h3 : matchStatus s3 with
        | none => rw [h3] at h; cases h
        | some stp =>
          rw [h3] at h
          simp only [Option.some_bind] at h
          cases h4 : dropLit "</ac:task-status><ac:task-body>" stp.2 with
          | none => rw [h4] at h; cases h
          | some s5 =>
            rw [h4] at h
            simp only [Option.some_bind] at h
            cases h5 : lazyBody "</ac:task-body></ac:task>" s5 with
            | none => rw [h5] at h; cases h
            | some bp =>
              rw [h5] at h
              simp only [Option.map_some'] at h
              injection h with h
              injection h with hds h
              injection h with hst hbody
              refine ⟨by rw [← hds]; exact hd, ?_, ?_, ?_⟩
              · intro c hc
                rw [← hds] at hc
                exact (spanP_spec Char.isDigit s1).2 c hc
              · have := matchStatus_spec (show matchStatus s3 = some (stp.1, stp.2) by rw [h3])
                rw [← hst]
                exact this
              · refine ⟨s5, bp.2, ?_⟩
                rw [h5, ← hbody]

theorem mkTask_data (ds : List Char) (st : String) (body : List Char) :
    (mkTaskLine ds st body).data
      = ("<ac:task><ac:task-id>" : String).data
          ++ (ds ++ (("</ac:task-id><ac:task-status>" : String).data
          ++ (st.data ++ (("</ac:task-status><ac:task-body>" : String).data
          ++ (body ++ ("</ac:task-body></ac:task>" : String).data))))) := by
  unfold mkTaskLine
  simp only [dataAppend, mkData, List.append_assoc]

theorem matchTodoAt_build (ds : List Char) (st : String) (body : List Char)
    (hne : ds ≠ []) (hdig : ∀ c ∈ ds, c.isDigit = true)
    (hst : st = "complete" ∨ st = "incomplete")
    (hlz : lazyBody "</ac:task-body></ac:task>"
        (body ++ ("</ac:task-body></ac:task>" : String).data) = some (body, [])) :
    matchTodoAt (mkTaskLine ds st body).data = some (ds, st, body) := by
  rw [mkTask_data]
  have hspan : spanP Char.isDigit (ds ++ (("</ac:task-id><ac:task-status>" : String).data
      ++ (st.data ++ (("</ac:task-status><ac:task-body>" : String).data
      ++ (body ++ ("</ac:task-body></ac:task>" : String).data)))))
      = (ds, ("</ac:task-id><ac:task-status>" : String).data
          ++ (st.data ++ (("</ac:task-status><ac:task-body>" : String).data
          ++ (body ++ ("</ac:task-body></ac:task>" : String).data)))) := by
    rw [show ("</ac:task-id><ac:task-status>" : String).data
        = '<' :: ("/ac:task-id><ac:task-status>" : String).data from rfl,
      List.cons_append]
    exact spanP_build Char.isDigit ds '<' _ hdig (by decide)
  unfold matchTodoAt
  rw [dropLit_build]
  simp only [Option.some_bind]
  rw [hspan]
  simp only [if_neg hne]
  rw [dropLit_build]
  simp only [Option.some_bind]
  rcases hst with hst | hst
  · subst hst
    rw [matchStatus_build_c]
    simp only [Option.some_bind]
    rw [dropLit_build]
    simp only [Option.some_bind]
    rw [hlz]
    rfl
  · subst hst
    rw [matchStatus_build_i]
    simp only [Option.some_bind]
    rw [dropLit_build]
    simp only [Option.some_bind]
    rw [hlz]
    rfl

theorem findTodoMatch_spec : ∀ (s : List Char) cap, findTodoMatch s = some cap →
    ∃ s0, matchTodoAt s0 = some cap := by
  intro s
  induction s with
  | nil => intro cap h; cases h
  | cons c cs ih =>
    intro cap h
    cases hm : matchTodoAt (c :: cs) with
    | some r =>
      simp only [findTodoMatch, hm] at h
      exact ⟨c :: cs, by rw [hm, h]⟩
    | none =>
      simp only [findTodoMatch, hm] at h
      exact ih cap h

theorem findTodoMatch_head {s : List Char} {cap} (h : matchTodoAt s = some cap) :
    findTodoMatch s = some cap := by
  cases s with
  | nil =>
    rw [show matchTodoAt [] = none from rfl] at h
    cases h
  | cons c cs => simp only [findTodoMatch, h]

theorem findTodoMatch_nonWs : ∀ (s : List Char) cap, findTodoMatch s = some cap →
    ∃ c ∈ s, jsWs c = false := by
  intro s
  induction s with
  | nil => intro cap h; cases h
  | cons c cs ih =>
    intro cap h
    cases hm : matchTodoAt (c :: cs) with
    | some r =>
      have h1 : ∃ s1, dropLit "<ac:task><ac:task-id>" (c :: cs) = some s1 := by
        unfold matchTodoAt at hm
        cases h2 : dropLit "<ac:task><ac:task-id>" (c :: cs) with
        | none => rw [h2] at hm; cases hm
        | some s1 => exact ⟨s1, rfl⟩
      obtain ⟨s1, hs1⟩ := h1
      have := dropLit_spec hs1
      rw [show ("<ac:task><ac:task-id>" : String).data
          = '<' :: ("ac:task><ac:task-id>" : String).data from rfl, List.cons_append] at this
      injection this with hc _
      exact ⟨c, List.mem_cons_self c cs, by rw [hc]; decide⟩
    | none =>
      simp only [findTodoMatch, hm] at h
      obtain ⟨d, hd, hw⟩ := ih cap h
      exact ⟨d, List.mem_cons_of_mem c hd, hw⟩

theorem mem_dropWhile {p : Char → Bool} {c : Char} :
    ∀ {l : List Char}, c ∈ l → p c = false → c ∈ l.dropWhile p := by
  intro l
  induction l with
  | nil => intro h _; cases h
  | cons x xs ih =>
    intro hm hp
    by_cases hx : p x = true
    · rw [List.dropWhile_cons_of_pos hx]
      rcases List.mem_cons.1 hm with h | h
      · rw [h] at hp; rw [hp] at hx; cases hx
      · exact ih h hp
    · rw [List.dropWhile_cons_of_neg (by simpa using hx)]
      exact hm

theorem trimS_ne {s : String} (h : ∃ c ∈ s.data, jsWs c = false) : trimS s ≠ "" := by
  obtain ⟨c, hc, hw⟩ := h
  intro hcon
  have hdata : trimChars s.data = ([] : List Char) := congrArg String.data hcon
  have h1 : c ∈ s.data.dropWhile jsWs := mem_dropWhile hc hw
  have h2 : c ∈ (s.data.dropWhile jsWs).reverse := List.mem_reverse.2 h1
  have h3 : c ∈ (s.data.dropWhile jsWs).reverse.dropWhile jsWs := mem_dropWhile h2 hw
  have h4 : c ∈ trimChars s.data := by
    unfold trimChars
    exact List.mem_reverse.2 h3
  rw [hdata] at h4
  cases h4

theorem line_trim_ne {l : String} {cap} (h : findTodoMatch l.data = some cap) :
    trimS l ≠ "" := by
  obtain ⟨c, hc, hw⟩ := findTodoMatch_nonWs l.data cap h
  exact trimS_ne ⟨c, hc, hw⟩

theorem mkTask_not_h3 (ds : List Char) (st : String) (body : List Char) :
    jsStartsWith (mkTaskLine ds st body) "<h3>" = false := by
  unfold jsStartsWith
  rw [mkTask_data]
  rw [show ("<ac:task><ac:task-id>" : String).data
      = '<' :: 'a' :: ("c:task><ac:task-id>" : String).data from rfl]
  rw [List.cons_append, List.cons_append]
  rw [show ("<h3>" : String).data = '<' :: 'h' :: ['3', '>'] from rfl]
  have hha : ('h' == 'a') = false := by decide
  simp [List.isPrefixOf, hha]

theorem mkTask_trim_ne (ds : List Char) (st : String) (body : List Char) :
    trimS (mkTaskLine ds st body) ≠ "" := by
  apply trimS_ne
  refine ⟨'<', ?_, by decide⟩
  rw [mkTask_data]
  apply List.mem_append_left
  decide

theorem mkTask_ne_todos (ds : List Char) (st : String) (body : List Char) :
    mkTaskLine ds st body ≠ "<h3>Todos</h3>" := by
  intro hcon
  have h1 := mkTask_not_h3 ds st body
  rw [hcon] at h1
  rw [show jsStartsWith "<h3>Todos</h3>" "<h3>" = true from by decide] at h1
  cases h1

/-! ### Lemmas about the todo scan -/

theorem extractGo_mono : ∀ (ls : List String) (i : Nat) (inT : Bool) (t : TodoItem),
    t ∈ extractGo ls i inT → i ≤ t.lineNumber := by
  intro ls
  induction ls with
  | nil => intro i inT t h; cases h
  | cons l rest ih =>
    intro i inT t h
    by_cases h1 : l = "<h3>Todos</h3>"
    · simp only [extractGo, if_pos h1] at h
      exact Nat.le_of_succ_le (ih (i + 1) true t h)
    · simp only [extractGo, if_neg h1] at h
      by_cases h2 : (if jsStartsWith l "<h3>" then false else inT) = true ∧ trimS l ≠ ""
      · rw [if_pos h2] at h
        cases hm : findTodoMatch l.data with
        | some cap =>
          rcases cap with ⟨ds, st, body⟩
          rw [hm] at h
          simp only at h
          rcases List.mem_cons.1 h with h | h
          · rw [h]
          · exact Nat.le_of_succ_le (ih (i + 1) _ t h)
        | none =>
          rw [hm] at h
          simp only at h
          exact Nat.le_of_succ_le (ih (i + 1) _ t h)
      · rw [if_neg h2] at h
        exact Nat.le_of_succ_le (ih (i + 1) _ t h)

theorem map_flip_id (n : Nat) (ch : Bool) :
    ∀ (xs : List TodoItem), (∀ t ∈ xs, t.lineNumber ≠ n) →
      (xs.map fun u => if u.lineNumber = n then { u with checked := ch } else u) = xs := by
  intro xs
  induction xs with
  | nil => intro _; rfl
  | cons x tail ih =>
    intro h
    simp only [List.map_cons, if_neg (h x (List.mem_cons_self x tail)),
      ih (fun t ht => h t (List.mem_cons_of_mem x ht))]

theorem extractGo_line : ∀ (ls : List String) (i : Nat) (inT : Bool) (t : TodoItem),
    t ∈ extractGo ls i inT →
      i ≤ t.lineNumber
        ∧ ∃ l, ls[t.lineNumber - i]? = some l
            ∧ (∃ cap, findTodoMatch l.data = some cap)
            ∧ jsStartsWith l "<h3>" = false := by
  intro ls
  induction ls with
  | nil => intro i inT t h; cases h
  | cons l rest ih =>
    intro i inT t h
    have hstep : ∀ inT2, t ∈ extractGo rest (i + 1) inT2 →
        i ≤ t.lineNumber
          ∧ ∃ l2, (l :: rest)[t.lineNumber - i]? = some l2
              ∧ (∃ cap, findTodoMatch l2.data = some cap)
              ∧ jsStartsWith l2 "<h3>" = false := by
      intro inT2 hmem
      obtain ⟨hle, l2, hget, hcap, hsw⟩ := ih (i + 1) inT2 t hmem
      refine ⟨Nat.le_of_succ_le hle, l2, ?_, hcap, hsw⟩
      rw [show t.lineNumber - i = (t.lineNumber - (i + 1)) + 1 from by omega]
      rw [List.getElem?_cons_succ]
      exact hget
    by_cases h1 : l = "<h3>Todos</h3>"
    · simp only [extractGo, if_pos h1] at h
      exact hstep true h
    · simp only [extractGo, if_neg h1] at h
      by_cases h2 : (if jsStartsWith l "<h3>" then false else inT) = true ∧ trimS l ≠ ""
      · have hsw : jsStartsWith l "<h3>" = false := by
          by_cases hs : jsStartsWith l "<h3>" = true
          · rw [if_pos hs] at h2
            cases h2.1
          · simpa using hs
        rw [if_pos h2] at h
        cases hm : findTodoMatch l.data with
        | some cap =>
          rcases cap with ⟨ds, st, body⟩
          rw [hm] at h
          simp only at h
          rcases List.mem_cons.1 h with h | h
          · refine ⟨by rw [h], l, ?_, ⟨(ds, st, body), hm⟩, hsw⟩
            rw [h]
            simp
          · exact hstep _ h
        | none =>
          rw [hm] at h
          simp only at h
          exact hstep _ h
      · rw [if_neg h2] at h
        exact hstep _ h

theorem statusStr_beq (ch : Bool) : (statusStr ch == "complete") = ch := by
  cases ch <;> decide

theorem mkTask_parse {l : String} {ds : List Char} {st : String} {body : List Char}
    (hm : findTodoMatch l.data = some (ds, st, body)) (ch : Bool) :
    findTodoMatch (mkTaskLine ds (statusStr ch) body).data = some (ds, statusStr ch, body) := by
  obtain ⟨s0, hat⟩ := findTodoMatch_spec l.data _ hm
  obtain ⟨hne, hdig, _, s5, r, hlz5⟩ := matchTodoAt_spec hat
  have hlz := lazyBody_self "</ac:task-body></ac:task>" s5 body r hlz5
  refine findTodoMatch_head (matchTodoAt_build ds (statusStr ch) body hne hdig ?_ hlz)
  cases ch with
  | false => exact Or.inr rfl
  | true => exact Or.inl rfl

theorem extractGo_set :
    ∀ (ls : List String) (k i : Nat) (inT : Bool) (l : String) (ds : List Char) (st : String)
      (body : List Char) (ch : Bool),
      ls[k]? = some l →
      findTodoMatch l.data = some (ds, st, body) →
      jsStartsWith l "<h3>" = false →
      extractGo (ls.set k (mkTaskLine ds (statusStr ch) body)) i inT
        = (extractGo ls i inT).map
            fun u => if u.lineNumber = i + k then { u with checked := ch } else u := by
  intro ls
  induction ls with
  | nil =>
    intro k i inT l ds st body ch hget _ _
    simp at hget
  | cons l0 rest ih =>
    intro k i inT l ds st body ch hget hm hsw
    cases k with
    | zero =>
      have hl0 : l0 = l := by simpa using hget
      subst hl0
      rw [List.set_cons_zero]
      have hm2 := mkTask_parse hm ch
      have hswL2 := mkTask_not_h3 ds (statusStr ch) body
      have htodoL2 := mkTask_ne_todos ds (statusStr ch) body
      have htrimL2 := mkTask_trim_ne ds (statusStr ch) body
      have htrim1 : trimS l0 ≠ "" := line_trim_ne hm
      have hne_todos : l0 ≠ "<h3>Todos</h3>" := by
        intro hcon
        rw [hcon] at hsw
        rw [show jsStartsWith "<h3>Todos</h3>" "<h3>" = true from by decide] at hsw
        cases hsw
      simp only [extractGo, if_neg htodoL2, if_neg hne_todos, hswL2, hsw,
        Bool.false_eq_true, if_false]
      by_cases hinT : inT = true
      · rw [if_pos ⟨hinT, htrimL2⟩, if_pos ⟨hinT, htrim1⟩, hm, hm2]
        simp only [List.map_cons]
        rw [map_flip_id (i + 0) ch _
          (fun t ht => by have := extractGo_mono rest (i + 1) inT t ht; omega)]
        simp only [statusStr_beq]
        rw [if_pos (show (⟨st == "complete", cleanText body, i, matchAllAnchors body,
          "todo-" ++ String.mk ds⟩ : TodoItem).lineNumber = i + 0 from by simp)]
      · rw [if_neg (fun hc => hinT hc.1), if_neg (fun hc => hinT hc.1)]
        rw [map_flip_id (i + 0) ch _
          (fun t ht => by have := extractGo_mono rest (i + 1) inT t ht; omega)]
    | succ j =>
      have hget2 : rest[j]? = some l := by simpa using hget
      rw [List.set_cons_succ]
      by_cases h1 : l0 = "<h3>Todos</h3>"
      · simp only [extractGo, if_pos h1]
        rw [ih j (i + 1) true l ds st body ch hget2 hm hsw,
          show i + 1 + j = i + (j + 1) from by omega]
      · simp only [extractGo, if_neg h1]
        by_cases h2 : (if jsStartsWith l0 "<h3>" then false else inT) = true ∧ trimS l0 ≠ ""
        · rw [if_pos h2, if_pos h2]
          cases hmm : findTodoMatch l0.data with
          | some cap =>
            rcases cap with ⟨ds0, st0, body0⟩
            dsimp only
            simp only [List.map_cons]
            rw [ih j (i + 1) _ l ds st body ch hget2 hm hsw,
              show i + 1 + j = i + (j + 1) from by omega]
            rw [if_neg (show ¬((⟨st0 == "complete", cleanText body0, i, matchAllAnchors body0,
              "todo-" ++ String.mk ds0⟩ : TodoItem).lineNumber = i + (j + 1)) from by
                simp only
                omega)]
          | none =>
            dsimp only
            rw [ih j (i + 1) _ l ds st body ch hget2 hm hsw,
              show i + 1 + j = i + (j + 1) from by omega]
        · rw [if_neg h2, if_neg h2]
          rw [ih j (i + 1) _ l ds st body ch hget2 hm hsw,
            show i + 1 + j = i + (j + 1) from by omega]

/-- Claim C7: for every today-section (as its line list) containing a todo
with id 1, unchecked, text "Buy milk" at line `n`, updating that line to
checked with `updateTodoInSection` and re-parsing with `extractTodos` yields
the same todo list with only that todo's `checked` flag flipped to `true`
(its text, context references, id and position unchanged, and every other
parsed todo unchanged), and every line other than line `n` is byte-for-byte
unchanged. -/
theorem c7_update_frame (lines : List String) (n : Nat) (t : TodoItem)
    (ht : t ∈ extractTodosL lines) (hn : t.lineNumber = n)
    (_hid : t.todoId = "todo-1") (_hch : t.checked = false) (_htx : t.text = "Buy milk") :
    extractTodosL (updateTodoInSectionL lines n true)
        = (extractTodosL lines).map
            (fun u => if u.lineNumber = n then { u with checked := true } else u)
      ∧ ∀ m, m ≠ n → (updateTodoInSectionL lines n true)[m]? = lines[m]? := by
  obtain ⟨_, l, hget, ⟨cap, hcap⟩, hsw⟩ := extractGo_line lines 0 false t ht
  rw [hn] at hget
  rw [show n - 0 = n from by omega] at hget
  rcases cap with ⟨ds, st, body⟩
  have hupdate : updateTodoInSectionL lines n true
      = lines.set n (mkTaskLine ds (statusStr true) body) := by
    unfold updateTodoInSectionL
    rw [List.get?_eq_getElem?, hget]
    dsimp only
    rw [hcap]
  constructor
  · rw [hupdate]
    unfold extractTodosL
    rw [extractGo_set lines n 0 false l ds st body true hget hcap hsw]
    simp only [Nat.zero_add]
  · intro m hm2
    rw [hupdate]
    exact List.getElem?_set_ne (by omega)

/-- Witness for C7 on a concrete two-todo section. -/
theorem c7_update_frame_witness :
    (c7t0 ∈ extractTodosL c7L0 ∧ c7t0.lineNumber = 4 ∧ c7t0.todoId = "todo-1"
        ∧ c7t0.checked = false ∧ c7t0.text = "Buy milk")
      ∧ (extractTodosL (updateTodoInSectionL c7L0 4 true)
            = (extractTodosL c7L0).map
                (fun u => if u.lineNumber = 4 then { u with checked := true } else u)
          ∧ ∀ m, m ≠ 4 → (updateTodoInSectionL c7L0 4 true)[m]? = c7L0[m]?) := by
  refine ⟨⟨by decide, rfl, rfl, rfl, rfl⟩, ?_⟩
  exact c7_update_frame c7L0 4 c7t0 (by decide) rfl rfl rfl rfl

/-! ### Lemmas about line splitting and joining -/

theorem splitGo_ne (c : Char) (cs acc : List Char) (h : ¬(c = '\n')) :
    splitLinesGo (c :: cs) acc = splitLinesGo cs (c :: acc) := by
  simp [splitLinesGo, h]

theorem splitGo_nl (cs acc : List Char) :
    splitLinesGo ('\n' :: cs) acc = String.mk acc.reverse :: splitLinesGo cs [] := by
  simp [splitLinesGo]

theorem splitSeg : ∀ (pre : List Char), ('\n' : Char) ∉ pre → ∀ (rest acc : List Char),
    splitLinesGo (pre ++ '\n' :: rest) acc
      = String.mk (acc.reverse ++ pre) :: splitLinesGo rest [] := by
  intro pre
  induction pre with
  | nil =>
    intro _ rest acc
    rw [List.nil_append, splitGo_nl, List.append_nil]
  | cons c cs ih =>
    intro hnl rest acc
    have hc : ¬(c = '\n') := fun hcon => hnl (by rw [hcon]; exact List.mem_cons_self _ _)
    rw [List.cons_append, splitGo_ne c _ _ hc,
      ih (fun hm => hnl (List.mem_cons_of_mem c hm)) rest (c :: acc)]
    simp

theorem splitGo_ne_nil : ∀ (cs acc : List Char), splitLinesGo cs acc ≠ [] := by
  intro cs
  induction cs with
  | nil => intro acc h; cases h
  | cons c cs ih =>
    intro acc
    by_cases hc : c = '\n'
    · subst hc
      rw [splitGo_nl]
      exact List.cons_ne_nil _ _
    · rw [splitGo_ne c cs acc hc]
      exact ih (c :: acc)

theorem mkAppend (a b : List Char) : String.mk a ++ String.mk b = String.mk (a ++ b) := rfl

theorem joinSplitGo : ∀ (cs acc : List Char),
    jsJoinNl (splitLinesGo cs acc) = String.mk (acc.reverse ++ cs) := by
  intro cs
  induction cs with
  | nil => intro acc; simp [splitLinesGo, jsJoinNl]
  | cons c cs ih =>
    intro acc
    by_cases hc : c = '\n'
    · subst hc
      rw [splitGo_nl]
      obtain ⟨y, ys, hys⟩ := List.exists_cons_of_ne_nil (splitGo_ne_nil cs [])
      rw [hys]
      show String.mk acc.reverse ++ "\n" ++ jsJoinNl (y :: ys) = _
      rw [← hys, ih []]
      rw [show ("\n" : String) = String.mk ['\n'] from rfl, mkAppend, mkAppend]
      simp
    · rw [splitGo_ne c cs acc hc, ih (c :: acc)]
      simp

theorem joinSplit (s : String) : jsJoinNl (jsSplitNl s) = s := by
  unfold jsSplitNl
  rw [joinSplitGo]
  rfl

theorem splitGo_lines : ∀ (xs : List String), (∀ x ∈ xs, ('\n' : Char) ∉ x.data) →
    ∀ (tail : List Char),
      splitLinesGo (linesData xs tail) [] = xs ++ splitLinesGo tail [] := by
  intro xs
  induction xs with
  | nil => intro _ tail; rfl
  | cons x xs ih =>
    intro h tail
    show splitLinesGo (x.data ++ '\n' :: linesData xs tail) [] = _
    rw [splitSeg x.data (h x (List.mem_cons_self x xs)) _ []]
    rw [ih (fun y hy => h y (List.mem_cons_of_mem x hy)) tail]
    rfl

theorem heading_data (t : String) :
    (headingOf t).data = '<' :: 'h' :: '2' :: '>' :: (t.data ++ ("</h2>" : String).data) := rfl

theorem heading_ne (t s : String) (h : s.data.take 3 ≠ ['<', 'h', '2']) : s ≠ headingOf t := by
  intro hcon
  apply h
  rw [hcon, heading_data]
  rfl

theorem heading_no_nl {t : String} (hnl : ('\n' : Char) ∉ t.data) :
    ('\n' : Char) ∉ (headingOf t).data := by
  rw [heading_data]
  intro hm
  simp only [List.mem_cons] at hm
  rcases hm with h | h | h | h | h
  · cases h
  · cases h
  · cases h
  · cases h
  · rcases List.mem_append.1 h with h | h
    · exact hnl h
    · revert h
      decide

theorem nsMid_skip (t : String) :
    ∀ s ∈ nsMid, s ≠ headingOf t ∧ (jsStartsWith s "<h2>" || jsStartsWith s "<hr") = false := by
  intro s hs
  simp only [nsMid, List.mem_cons] at hs
  rcases hs with rfl | rfl | rfl | rfl | rfl | rfl | rfl | rfl | rfl | rfl | rfl | rfl | h
  · exact ⟨heading_ne t _ (by decide), by decide⟩
  · exact ⟨heading_ne t _ (by decide), by decide⟩
  · exact ⟨heading_ne t _ (by decide), by decide⟩
  · exact ⟨heading_ne t _ (by decide), by decide⟩
  · exact ⟨heading_ne t _ (by decide), by decide⟩
  · exact ⟨heading_ne t _ (by decide), by decide⟩
  · exact ⟨heading_ne t _ (by decide), by decide⟩
  · exact ⟨heading_ne t _ (by decide), by decide⟩
  · exact ⟨heading_ne t _ (by decide), by decide⟩
  · exact ⟨heading_ne t _ (by decide), by decide⟩
  · exact ⟨heading_ne t _ (by decide), by decide⟩
  · exact ⟨heading_ne t _ (by decide), by decide⟩
  · cases h

theorem findSpan_skip (heading : String) (total : Nat) :
    ∀ (tail : List String) (i k : Nat),
      (∀ s ∈ tail, s ≠ heading ∧ (jsStartsWith s "<h2>" || jsStartsWith s "<hr") = false) →
      findSpan heading total tail i (some k) = (some k, total) := by
  intro tail
  induction tail with
  | nil => intro i k _; rfl
  | cons s rest ih =>
    intro i k h
    have hs := h s (List.mem_cons_self s rest)
    simp only [findSpan, if_neg hs.1, hs.2, Bool.false_and, Bool.false_eq_true, if_false]
    exact ih (i + 1) k (fun x hx => h x (List.mem_cons_of_mem s hx))

theorem findSpan_skip_break (heading : String) (total : Nat) :
    ∀ (pre : List String) (brk : String) (rest : List String) (i k : Nat),
      (∀ s ∈ pre, s ≠ heading ∧ (jsStartsWith s "<h2>" || jsStartsWith s "<hr") = false) →
      brk ≠ heading → (jsStartsWith brk "<h2>" || jsStartsWith brk "<hr") = true → k < i →
      findSpan heading total (pre ++ brk :: rest) i (some k) = (some k, i + pre.length) := by
  intro pre
  induction pre with
  | nil =>
    intro brk rest i k _ hb1 hb2 hki
    rw [List.nil_append]
    simp only [findSpan, if_neg hb1, hb2, Bool.true_and, decide_eq_true hki, if_pos]
    rfl
  | cons s pre ih =>
    intro brk rest i k h hb1 hb2 hki
    have hs := h s (List.mem_cons_self s pre)
    rw [List.cons_append]
    simp only [findSpan, if_neg hs.1, hs.2, Bool.false_and, Bool.false_eq_true, if_false]
    rw [ih brk rest (i + 1) k (fun x hx => h x (List.mem_cons_of_mem s hx)) hb1 hb2 (by omega)]
    rw [show i + 1 + pre.length = i + (s :: pre).length from by simp; omega]

theorem ns_split (today : String) (hnl : ('\n' : Char) ∉ today.data) :
    jsSplitNl (newSectionFor today) = headingOf today :: (nsMid ++ [""]) := by
  have hdata : (newSectionFor today).data
      = (headingOf today).data ++ '\n' :: linesData nsMid [] := by
    simp only [newSectionFor, headingOf, dataAppend, List.append_assoc]
    congr 2
  unfold jsSplitNl
  rw [hdata, splitSeg (headingOf today).data (heading_no_nl hnl) _ []]
  rw [splitGo_lines nsMid (by decide) []]
  rfl

theorem ns_hr_split (today content : String) (hnl : ('\n' : Char) ∉ today.data) :
    jsSplitNl (newSectionFor today ++ "<hr>\n\n" ++ content)
      = headingOf today :: (nsMid ++ "<hr>" :: "" :: jsSplitNl content) := by
  have hdata : (newSectionFor today ++ "<hr>\n\n" ++ content).data
      = (headingOf today).data ++ '\n' :: linesData (nsMid ++ ["<hr>", ""]) content.data := by
    simp only [newSectionFor, headingOf, dataAppend, List.append_assoc]
    congr 2
  unfold jsSplitNl
  rw [hdata, splitSeg (headingOf today).data (heading_no_nl hnl) _ []]
  rw [splitGo_lines (nsMid ++ ["<hr>", ""]) (by decide) content.data]
  rfl

theorem gts_head_skip (today : String) (tail : List String)
    (hskip : ∀ s ∈ tail, s ≠ headingOf today
      ∧ (jsStartsWith s "<h2>" || jsStartsWith s "<hr") = false) :
    getTodaySectionL today (headingOf today :: tail)
      = some ⟨0, (headingOf today :: tail).length, jsJoinNl (headingOf today :: tail)⟩ := by
  unfold getTodaySectionL
  rw [if_pos (List.mem_cons_self _ _)]
  rw [show findSpan (headingOf today) (headingOf today :: tail).length
      (headingOf today :: tail) 0 none
      = findSpan (headingOf today) (headingOf today :: tail).length tail 1 (some 0) from by
    simp [findSpan]]
  rw [findSpan_skip (headingOf today) _ tail 1 0 hskip]
  dsimp only
  rw [List.drop_zero, Nat.sub_zero, List.take_length]

theorem gts_head_break (today : String) (pre : List String) (brk : String) (rest : List String)
    (hskip : ∀ s ∈ pre, s ≠ headingOf today
      ∧ (jsStartsWith s "<h2>" || jsStartsWith s "<hr") = false)
    (hb1 : brk ≠ headingOf today)
    (hb2 : (jsStartsWith brk "<h2>" || jsStartsWith brk "<hr") = true) :
    getTodaySectionL today (headingOf today :: (pre ++ brk :: rest))
      = some ⟨0, 1 + pre.length, jsJoinNl (headingOf today :: pre)⟩ := by
  unfold getTodaySectionL
  rw [if_pos (List.mem_cons_self _ _)]
  rw [show findSpan (headingOf today) (headingOf today :: (pre ++ brk :: rest)).length
      (headingOf today :: (pre ++ brk :: rest)) 0 none
      = findSpan (headingOf today) (headingOf today :: (pre ++ brk :: rest)).length
          (pre ++ brk :: rest) 1 (some 0) from by
    simp [findSpan]]
  rw [findSpan_skip_break (headingOf today) _ pre brk rest 1 0 hskip hb1 hb2 (by omega)]
  dsimp only
  rw [List.drop_zero, Nat.sub_zero]
  rw [show headingOf today :: (pre ++ brk :: rest)
      = (headingOf today :: pre) ++ brk :: rest from rfl]
  rw [show 1 + pre.length = (headingOf today :: pre).length from by simp [Nat.add_comm]]
  rw [List.take_left]

/-- Claim C6 (amended): under the day-heading conventions (no newline in the
date string, heading not yet present), running `initializeTodaySection`
twice in a row writes nothing on the second call (the file content is
unchanged — the second call takes the pure found path), the file contains
exactly one line equal to today's heading (no duplicate region), and the
returned section content agrees across the two calls exactly when the file
was initially empty; when the skeleton was prepended above existing content,
the first call's return exceeds the second call's by one trailing newline. -/
theorem c6_initialize_idempotent (today content : String)
    (hnl : ('\n' : Char) ∉ today.data)
    (hmem : headingOf today ∉ jsSplitNl content) :
    (initializeTodaySectionP today (initializeTodaySectionP today content).1).1
        = (initializeTodaySectionP today content).1
      ∧ (jsSplitNl (initializeTodaySectionP today content).1).count (headingOf today) = 1
      ∧ (trimS content = "" →
          (initializeTodaySectionP today (initializeTodaySectionP today content).1).2
            = (initializeTodaySectionP today content).2)
      ∧ (trimS content ≠ "" →
          (initializeTodaySectionP today content).2
            = (initializeTodaySectionP today (initializeTodaySectionP today content).1).2
                ++ "\n") := by
  have hnone : getTodaySection today content = none := by
    unfold getTodaySection getTodaySectionL
    rw [if_neg hmem]
  by_cases htr : trimS content = ""
  · have hp1 : initializeTodaySectionP today content
        = (newSectionFor today, newSectionFor today) := by
      unfold initializeTodaySectionP
      rw [hnone]
      dsimp only
      rw [if_neg (fun hc => hc htr)]
    have hsplit := ns_split today hnl
    have hskip : ∀ s ∈ nsMid ++ [""], s ≠ headingOf today
        ∧ (jsStartsWith s "<h2>" || jsStartsWith s "<hr") = false := by
      intro s hs
      rcases List.mem_append.1 hs with h | h
      · exact nsMid_skip today s h
      · simp only [List.mem_singleton] at h
        subst h
        exact ⟨heading_ne today _ (by decide), by decide⟩
    have hgts : getTodaySection today (newSectionFor today)
        = some ⟨0, (headingOf today :: (nsMid ++ [""])).length,
            jsJoinNl (headingOf today :: (nsMid ++ [""]))⟩ := by
      unfold getTodaySection
      rw [hsplit]
      exact gts_head_skip today (nsMid ++ [""]) hskip
    have hp2 : initializeTodaySectionP today (newSectionFor today)
        = (newSectionFor today, jsJoinNl (headingOf today :: (nsMid ++ [""]))) := by
      unfold initializeTodaySectionP
      rw [hgts]
    have hjoin : jsJoinNl (headingOf today :: (nsMid ++ [""])) = newSectionFor today := by
      rw [← hsplit, joinSplit]
    have hnotmem : headingOf today ∉ nsMid ++ [""] := fun hm => (hskip _ hm).1 rfl
    refine ⟨?_, ?_, ?_, fun hc => absurd htr hc⟩
    · rw [hp1]
      dsimp only
      rw [hp2]
    · rw [hp1]
      dsimp only
      rw [hsplit, List.count_cons, List.count_eq_zero.2 hnotmem]
      simp
    · intro _
      rw [hp1]
      dsimp only
      rw [hp2]
      exact hjoin
  · have hp1 : initializeTodaySectionP today content
        = (newSectionFor today ++ "<hr>\n\n" ++ content, newSectionFor today) := by
      unfold initializeTodaySectionP
      rw [hnone]
      dsimp only
      rw [if_pos htr]
    have hsplit := ns_hr_split today content hnl
    have hskip := nsMid_skip today
    have hgts : getTodaySection today (newSectionFor today ++ "<hr>\n\n" ++ content)
        = some ⟨0, 1 + nsMid.length, jsJoinNl (headingOf today :: nsMid)⟩ := by
      unfold getTodaySection
      rw [hsplit]
      exact gts_head_break today nsMid "<hr>" ("" :: jsSplitNl content) hskip
        (heading_ne today "<hr>" (by decide)) (by decide)
    have hp2 : initializeTodaySectionP today (newSectionFor today ++ "<hr>\n\n" ++ content)
        = (newSectionFor today ++ "<hr>\n\n" ++ content,
            jsJoinNl (headingOf today :: nsMid)) := by
      unfold initializeTodaySectionP
      rw [hgts]
    have hns_eq : newSectionFor today = jsJoinNl (headingOf today :: nsMid) ++ "\n" := by
      apply String.ext
      rw [show jsJoinNl (headingOf today :: nsMid)
          = headingOf today ++ "\n" ++ jsJoinNl nsMid from rfl]
      simp only [newSectionFor, headingOf, dataAppend, List.append_assoc]
      congr 2
    have hnotmem : headingOf today ∉ nsMid ++ "<hr>" :: "" :: jsSplitNl content := by
      intro hm
      rcases List.mem_append.1 hm with h | h
      · exact (hskip _ h).1 rfl
      · simp only [List.mem_cons] at h
        rcases h with h | h | h
        · exact heading_ne today "<hr>" (by decide) h.symm
        · exact heading_ne today "" (by decide) h.symm
        · exact hmem h
    refine ⟨?_, ?_, fun hc => absurd hc htr, ?_⟩
    · rw [hp1]
      dsimp only
      rw [hp2]
    · rw [hp1]
      dsimp only
      rw [hsplit, List.count_cons, List.count_eq_zero.2 hnotmem]
      simp
    · intro _
      rw [hp1]
      dsimp only
      rw [hp2]
      dsimp only
      exact hns_eq

/-- Witness for C6 at a concrete day string and concrete file contents. -/
theorem c6_initialize_idempotent_witness :
    (('\n' : Char) ∉ ("Mon, Jan 1" : String).data
        ∧ headingOf "Mon, Jan 1" ∉ jsSplitNl "<h2>Sun</h2>\n<p>x</p>")
      ∧ ((initializeTodaySectionP "Mon, Jan 1"
            (initializeTodaySectionP "Mon, Jan 1" "<h2>Sun</h2>\n<p>x</p>").1).1
          = (initializeTodaySectionP "Mon, Jan 1" "<h2>Sun</h2>\n<p>x</p>").1
        ∧ (jsSplitNl (initializeTodaySectionP "Mon, Jan 1" "<h2>Sun</h2>\n<p>x</p>").1).count
            (headingOf "Mon, Jan 1") = 1
        ∧ (trimS "<h2>Sun</h2>\n<p>x</p>" = "" →
            (initializeTodaySectionP "Mon, Jan 1"
                (initializeTodaySectionP "Mon, Jan 1" "<h2>Sun</h2>\n<p>x</p>").1).2
              = (initializeTodaySectionP "Mon, Jan 1" "<h2>Sun</h2>\n<p>x</p>").2)
        ∧ (trimS "<h2>Sun</h2>\n<p>x</p>" ≠ "" →
            (initializeTodaySectionP "Mon, Jan 1" "<h2>Sun</h2>\n<p>x</p>").2
              = (initializeTodaySectionP "Mon, Jan 1"
                  (initializeTodaySectionP "Mon, Jan 1" "<h2>Sun</h2>\n<p>x</p>").1).2
                  ++ "\n")) := by
  refine ⟨⟨by decide, by decide⟩, ?_⟩
  exact c6_initialize_idempotent "Mon, Jan 1" "<h2>Sun</h2>\n<p>x</p>" (by decide) (by decide)
